import Mathlib

set_option autoImplicit false

/-!
Verification of the reconciliation / rate-limited synchronization engine of
the ONLINEZ scraper (src/scraper.py).  Pure functions of the source are
translated into executable Lean definitions; the spreadsheet is modelled as a
list of rows (row 1 = header), each row a list of cell strings.
-/

namespace Onlinez

/-! ## Text utilities (src/scraper.py, clean_text lines 585-595) -/

/-- Whitespace characters stripped by Python's str.strip() on the strings this
program handles (ASCII whitespace plus non-breaking space). -/
def isPySpace (c : Char) : Bool :=
  c == ' ' || c == '\t' || c == '\n' || c == '\r' || c == '\x0b' ||
  c == '\x0c' || c == '\xa0'

/-- Python str.strip(): drop leading and trailing whitespace. -/
def stripChars (l : List Char) : List Char :=
  ((l.dropWhile isPySpace).reverse.dropWhile isPySpace).reverse

/-- Python str.strip() lifted to String. -/
def pyStrip (s : String) : String := String.mk (stripChars s.data)

/-- The chained replacements of clean_text:
.replace('\xa0', ' ').replace('+', '').replace('\n', ' ').
The three replacements act on disjoint characters and none of the inserted
characters is replaced by a later stage, so one simultaneous pass is exact. -/
def replacePyChars (l : List Char) : List Char :=
  l.filterMap fun c =>
    if c == '\xa0' then some ' '
    else if c == '+' then none
    else if c == '\n' then some ' '
    else some c

/-- re.sub(r'\s+', ' ', text): collapse every maximal run of whitespace into a
single space.  The flag records whether the previous character was part of a
whitespace run already rewritten. -/
def collapseGo : Bool → List Char → List Char
  | _, [] => []
  | prevSpace, c :: cs =>
    if isPySpace c then
      if prevSpace then collapseGo true cs
      else ' ' :: collapseGo true cs
    else c :: collapseGo false cs

/-- Lowercasing as used by the placeholder comparison (the placeholders are
pure ASCII). -/
def lowerStr (s : String) : String := String.mk (s.data.map Char.toLower)

/-- The placeholder strings of clean_text (line 591). -/
def placeholder_texts : List String :=
  ["not set", "no set", "no city", "none", "n/a", "null"]

/-- clean_text (src/scraper.py lines 585-595): strip, apply the character
replacements, blank out placeholder values, then collapse whitespace runs and
strip again. -/
def clean_text (s : String) : String :=
  let t := String.mk (replacePyChars (stripChars s.data))
  if placeholder_texts.contains (lowerStr t) then ""
  else pyStrip (String.mk (collapseGo false t.data))

/-- extract_numbers keeps only digit runs joined by ", " (lines 597-602);
only needed to model JOINED values, kept abstract as strings elsewhere. -/
def extract_numbers (s : String) : String :=
  let groups := (s.data.splitOnP (fun c => !c.isDigit)).filter (· ≠ [])
  if groups.isEmpty then clean_text s
  else String.intercalate ", " (groups.map String.mk)

/-! ## Data model -/

/-- One scraped profile (the dict built in scrape_profile, lines 470-487,
represented as a fixed-shape record per the fixed key set). -/
structure Profile where
  date : String
  time : String
  nickname : String
  tags : String
  city : String
  gender : String
  married : String
  age : String
  joined : String
  followers : String
  posts : String
  lpost : String
  ldatetime : String
  plink : String
  pimage : String
  intro : String
deriving DecidableEq, Repr, Inhabited

/-- The main worksheet header row (lines 736-737). -/
def SHEET_HEADERS : List String :=
  ["DATE", "TIME", "NICKNAME", "TAGS", "CITY", "GENDER", "MARRIED", "AGE",
   "JOINED", "FOLLOWERS", "POSTS", "LPOST", "LDATE-TIME", "PLINK", "PIMAGE",
   "INTRO"]

/-- get_tags_for_nickname (lines 660-666): empty string when the nickname is
absent or its tag list is empty, else the tags joined by ", ". -/
def get_tags_for_nickname (nickname : String)
    (tm : List (String × List String)) : String :=
  match tm.find? (fun e => e.1 == nickname) with
  | none => ""
  | some e => if e.2.isEmpty then "" else String.intercalate ", " e.2

/-- The 16-cell row built for a profile in the export loop (lines 770-787):
the nickname is stripped (line 762), TAGS comes from the tags mapping
(line 767) and INTRO passes through clean_text a second time (line 786). -/
def buildRow (tm : List (String × List String)) (p : Profile) : List String :=
  let nickname := pyStrip p.nickname
  [p.date, p.time, nickname, get_tags_for_nickname nickname tm,
   p.city, p.gender, p.married, p.age, p.joined, p.followers, p.posts,
   p.lpost, p.ldatetime, p.plink, p.pimage, clean_text p.intro]

/-! ## Snapshot indexing (lines 747-754)

The code builds a dict keyed by the stripped NICKNAME cell; inserting rows
top to bottom means a later row with the same key overwrites an earlier one,
so a lookup returns the last matching row.  `lastMatch` returns the last row
(with its 1-based sheet index) whose key cell equals the nickname. -/

/-- The dict key of a raw sheet row: the stripped cell of column index 2, but
only when the row has more than 2 cells and that cell is non-blank
(line 750). -/
def rowKey (r : List String) : Option String :=
  if 2 < r.length then
    let k := pyStrip (r.getD 2 "")
    if k = "" then none else some k
  else none

/-- Last row whose key is the given nickname, scanning rows indexed from
`start`; equals dict insertion with later rows overwriting earlier ones. -/
def lastMatch (nick : String) : Nat → List (List String) →
    Option (Nat × List String)
  | _, [] => none
  | i, r :: rs =>
    match lastMatch nick (i + 1) rs with
    | some hit => some hit
    | none => if rowKey r = some nick then some (i, r) else none

/-- existing_rows lookup: data rows start at sheet row 2 (line 749). -/
def findExisting (snapshot : List (List String)) (nick : String) :
    Option (Nat × List String) :=
  lastMatch nick 2 (snapshot.drop 1)

/-! ## The diff decision (lines 795-809) -/

/-- The compared mutable column positions (line 797). -/
def key_fields : List Nat := [4, 5, 6, 7, 8, 9, 10, 11, 12, 15]

/-- needs_update (lines 796-809): some compared column differs with a
non-empty new value, or the TAGS cell differs (the tag comparison does not
require the new value to be non-empty). -/
def needs_update (existingRow newRow : List String) : Bool :=
  (key_fields.any fun i =>
    let ev := existingRow.getD i ""
    let nv := newRow.getD i ""
    ev != nv && nv != "") ||
  existingRow.getD 3 "" != newRow.getD 3 ""

/-! ## Sheet actions (the remote writes of the export loop) -/

/-- One remote write issued by export_to_google_sheets_with_rate_limiting on
the main worksheet: the header append (line 744), a ranged update
A..P of one row (lines 816-817) or an append_row at the bottom (line 844). -/
inductive SheetAction where
  | appendHeader : SheetAction
  | update : Nat → List String → SheetAction
  | append : List String → SheetAction
deriving DecidableEq, Repr

/-- Decision for one profile of the batch against the fixed snapshot
(lines 760-849): skip blank nicknames, update the matched row when
needs_update holds, append when the nickname is absent. -/
def processProfile (snapshot : List (List String))
    (tm : List (String × List String)) (p : Profile) : Option SheetAction :=
  let nickname := pyStrip p.nickname
  if nickname = "" then none
  else
    let row := buildRow tm p
    match findExisting snapshot nickname with
    | some e => if needs_update e.2 row then some (.update e.1 row) else none
    | none => some (.append row)

/-- Line 742: the header is (re)created when the sheet is empty or its first
row is empty; existing_rows is then empty so every profile appends. -/
def headerMissing (snapshot : List (List String)) : Bool :=
  snapshot.isEmpty || (snapshot.headD []).isEmpty

/-- The identifier a batch record contributes: none when the stripped
nickname is blank (such records are skipped, line 763). -/
def nickOf (p : Profile) : Option String :=
  if pyStrip p.nickname = "" then none else some (pyStrip p.nickname)

/-- The full list of main-worksheet writes for one batch, in batch order,
all decided against the one snapshot read at line 740. -/
def exportBatch (snapshot : List (List String))
    (tm : List (String × List String)) (batch : List Profile) :
    List SheetAction :=
  if headerMissing snapshot then
    SheetAction.appendHeader :: batch.filterMap (fun p =>
      let nickname := pyStrip p.nickname
      if nickname = "" then none else some (.append (buildRow tm p)))
  else
    batch.filterMap (processProfile snapshot tm)

/-- Effect of one write on the stored sheet: append_row adds a row at the
bottom; the ranged update A..P overwrites the first 16 cells of the 1-based
target row, leaving any further cells in place. -/
def applyAction (sheet : List (List String)) : SheetAction →
    List (List String)
  | .appendHeader => sheet ++ [SHEET_HEADERS]
  | .append r => sheet ++ [r]
  | .update i r => sheet.set (i - 1) (r ++ (sheet.getD (i - 1) []).drop 16)

/-- Apply a batch's writes in order. -/
def applyActions (sheet : List (List String)) (acts : List SheetAction) :
    List (List String) :=
  acts.foldl applyAction sheet

/-! ## Rate limiter (track_api_request, lines 70-96, and the 429 retry
pattern at lines 824-835)

Time is modelled in whole seconds.  Before every tracked call the code cleans
the timestamp log keeping entries whose age has (age).seconds < 60 (Python
timedelta semantics: the seconds component, i.e. age mod 86400), appends the
current time, and if the log now holds max_requests_per_minute entries it
sleeps retry_delay seconds and clears the log, so that call goes out only
after the sleep.  A call that fails with a 429 is retried exactly once after
another retry_delay sleep; that retry is an extra remote call that bypasses
track_api_request.  A trace is driven by the environment: for each tracked
call a gap (time elapsed since the previous call completed) and whether the
call fails with a throttle error.  `runCalls` returns the issue times of
every remote call made (tracked calls and their untracked 429 retries).

Not every spreadsheet call in the program runs through track_api_request.
The setup paths call open_by_url (lines 316 and 626), worksheet (lines 319
and 629) and get_all_values (lines 324 and 634) directly, and every export
invocation calls open_by_url (line 680), worksheet (line 685) and the
sheet1 lookup (line 733) directly; none of these consults or feeds the
sliding log.  `runAllCalls` extends the trace semantics with these
unguarded calls: a `CallEvent.untracked` issues at the current time and
leaves the log untouched, a `CallEvent.tracked` behaves exactly as a
`runCalls` step.  `trackedCalls` projects out of such a trace the issue
times of the limiter-governed calls only (the tracked calls and their 429
retries); `collapseEvents` folds the untracked events of a trace into the
gaps of the following tracked events, so that `trackedCalls` coincides
with `runCalls` on the collapsed trace. -/

/-- max_requests_per_minute (line 71). -/
def MAX_REQUESTS_PER_MINUTE : Nat := 50

/-- retry_delay (line 73), also the hard-coded 65-second sleeps. -/
def RETRY_DELAY : Nat := 65

/-- The cleaning predicate (line 87): (now - t).seconds < 60; for a
non-negative timedelta the seconds component is the total seconds
modulo 86400. -/
def keepRecent (now t : Nat) : Bool := (now - t) % 86400 < 60

/-- Cleaning pass over the request log (line 87). -/
def cleanLog (log : List Nat) (now : Nat) : List Nat :=
  log.filter (keepRecent now)

/-- Issue times of all remote calls of a trace.  State: the request log and
the current time; each list element is (gap before the call request,
whether the call fails with a 429). -/
def runCalls : List Nat → Nat → List (Nat × Bool) → List Nat
  | _, _, [] => []
  | log, now, gf :: gs =>
    let r := now + gf.1
    let cleaned := cleanLog log r
    if MAX_REQUESTS_PER_MINUTE ≤ cleaned.length + 1 then
      if gf.2 then
        (r + RETRY_DELAY) :: (r + 2 * RETRY_DELAY) ::
          runCalls [] (r + 2 * RETRY_DELAY) gs
      else
        (r + RETRY_DELAY) :: runCalls [] (r + RETRY_DELAY) gs
    else
      if gf.2 then
        r :: (r + RETRY_DELAY) :: runCalls (cleaned ++ [r]) (r + RETRY_DELAY) gs
      else
        r :: runCalls (cleaned ++ [r]) r gs

/-- Recency as the rate-limit window sees it from a call at time e: a call
at time p lies within the 60-second window ending at e. -/
def recentAt (e p : Nat) : Bool := e < p + 60

/-- Membership of a call time in the half-open window [w, w + 60). -/
def inWindow (w e : Nat) : Bool := w ≤ e && e < w + 60

/-- One remote spreadsheet call of an execution, with the gap the
environment inserts before it: `untracked` for the direct client calls
that bypass track_api_request (lines 316, 319, 324, 626, 629, 634, 680,
685, 733), `tracked` (with its 429-failure flag) for the calls guarded by
track_api_request (lines 690, 739, 743, 813, 842). -/
inductive CallEvent where
  | untracked : Nat → CallEvent
  | tracked : Nat → Bool → CallEvent
deriving DecidableEq, Repr

/-- Issue times of all remote calls of a full trace.  An untracked call
goes out immediately and leaves the request log untouched; a tracked call
behaves exactly as in `runCalls` (cleaning, the pause at 50 log entries,
and the untracked retry 65 seconds after a 429 failure). -/
def runAllCalls : List Nat → Nat → List CallEvent → List Nat
  | _, _, [] => []
  | log, now, CallEvent.untracked g :: es =>
    (now + g) :: runAllCalls log (now + g) es
  | log, now, CallEvent.tracked g fail :: es =>
    let r := now + g
    let cleaned := cleanLog log r
    if MAX_REQUESTS_PER_MINUTE ≤ cleaned.length + 1 then
      if fail then
        (r + RETRY_DELAY) :: (r + 2 * RETRY_DELAY) ::
          runAllCalls [] (r + 2 * RETRY_DELAY) es
      else
        (r + RETRY_DELAY) :: runAllCalls [] (r + RETRY_DELAY) es
    else
      if fail then
        r :: (r + RETRY_DELAY) :: runAllCalls (cleaned ++ [r]) (r + RETRY_DELAY) es
      else
        r :: runAllCalls (cleaned ++ [r]) r es

/-- Issue times of the limiter-governed calls only (tracked calls and
their 429 retries): same state evolution as `runAllCalls`, but untracked
events emit nothing. -/
def trackedCalls : List Nat → Nat → List CallEvent → List Nat
  | _, _, [] => []
  | log, now, CallEvent.untracked g :: es => trackedCalls log (now + g) es
  | log, now, CallEvent.tracked g fail :: es =>
    let r := now + g
    let cleaned := cleanLog log r
    if MAX_REQUESTS_PER_MINUTE ≤ cleaned.length + 1 then
      if fail then
        (r + RETRY_DELAY) :: (r + 2 * RETRY_DELAY) ::
          trackedCalls [] (r + 2 * RETRY_DELAY) es
      else
        (r + RETRY_DELAY) :: trackedCalls [] (r + RETRY_DELAY) es
    else
      if fail then
        r :: (r + RETRY_DELAY) :: trackedCalls (cleaned ++ [r]) (r + RETRY_DELAY) es
      else
        r :: trackedCalls (cleaned ++ [r]) r es

/-- Folds the untracked events of a trace into the gap of the next tracked
event (the accumulator carries the untracked time already elapsed), giving
the tracked-call trace that `runCalls` consumes. -/
def collapseEvents : Nat → List CallEvent → List (Nat × Bool)
  | _, [] => []
  | acc, CallEvent.untracked g :: es => collapseEvents (acc + g) es
  | acc, CallEvent.tracked g fail :: es =>
    (acc + g, fail) :: collapseEvents 0 es

/-- The six setup calls main issues before the user loop, none of them
tracked: get_tags_mapping's open_by_url, worksheet and get_all_values
(lines 626, 629, 634) followed by get_target_users' open_by_url, worksheet
and get_all_values (lines 316, 319, 324). -/
def startupEvents : List CallEvent :=
  List.replicate 6 (CallEvent.untracked 0)

/-- The remote-call sequence of one export invocation carrying three
target-status updates and three scraped profiles, in which every content
write fails with a non-throttle error and the lone read succeeds:
open_by_url (line 680, untracked), worksheet (line 685, untracked), three
tracked target updates (lines 690 and 707; the non-429 failure path takes
neither the request_delay sleep of line 710 nor any retry), the sheet1
lookup (line 733, untracked), the tracked get_all_values (lines 739-740,
never followed by a sleep), and three tracked profile writes (lines 813,
817 and 842, 844; again no sleep on the non-429 failure path). -/
def exportBurstEvents : List CallEvent :=
  [CallEvent.untracked 0, CallEvent.untracked 0,
   CallEvent.tracked 0 false, CallEvent.tracked 0 false,
   CallEvent.tracked 0 false,
   CallEvent.untracked 0,
   CallEvent.tracked 0 false,
   CallEvent.tracked 0 false, CallEvent.tracked 0 false,
   CallEvent.tracked 0 false]

/-- The call sequence of a fifteen-user run whose scrapes succeed and whose
sheet writes all fail with non-throttle errors: the six setup calls, then
five export invocations (one per batch of batch_size = 3 users), with
every environment-controlled gap taken to be zero. -/
def fullRunTrace : List CallEvent :=
  startupEvents ++ exportBurstEvents ++ exportBurstEvents ++
    exportBurstEvents ++ exportBurstEvents ++ exportBurstEvents

/-! ## The per-write error handling (lines 811-835 and 851-862) -/

/-- Outcome of one remote write attempt. -/
inductive CallOutcome where
  | ok : CallOutcome
  | throttle429 : CallOutcome
  | otherError : CallOutcome
deriving DecidableEq, Repr

/-- Line 825: the throttle test is "429" or "RATE_LIMIT_EXCEEDED" in the
error text. -/
def isThrottle : CallOutcome → Bool
  | .throttle429 => true
  | _ => false

/-- What one guarded write did: how many remote attempts, whether the
65-second backoff sleep ran, and whether a write eventually succeeded. -/
structure RetryTrace where
  attempts : Nat
  sleptBackoff : Bool
  succeeded : Bool
deriving DecidableEq, Repr

/-- A raw remote call either returns or raises its outcome. -/
def tryCall (o : CallOutcome) : Except CallOutcome Unit :=
  match o with
  | .ok => .ok ()
  | e => .error e

/-- The try/except wrapper around one worksheet write (lines 811-835; the
append branch at 851-862 is identical): a throttle failure sleeps 65 seconds
and retries once, a failing retry is logged by the inner bare except, and a
non-throttle failure is logged — every branch returns normally, so no
exception reaches the caller. -/
def updateWithRetry (first retryOutcome : CallOutcome) :
    Except CallOutcome RetryTrace :=
  match tryCall first with
  | .ok _ => .ok ⟨1, false, true⟩
  | .error e =>
    if isThrottle e then
      match tryCall retryOutcome with
      | .ok _ => .ok ⟨2, true, true⟩
      | .error _ => .ok ⟨2, true, false⟩
    else .ok ⟨1, false, false⟩

/-! ## Work queue (get_target_users, lines 312-352; the Target sheet) -/

/-- One claimed queue row. -/
structure QueueItem where
  username : String
  rowIndex : Nat
deriving DecidableEq, Repr

/-- Python str.upper() for the ASCII strings compared here. -/
def upperStr (s : String) : String := String.mk (s.data.map Char.toUpper)

/-- get_target_users (lines 312-352) on the raw Target-sheet values: needs at
least a header plus one row, the first two header cells must contain
USERNAME and STATUS (substring test, line 330), and every data row with at
least two cells, a non-blank stripped username and status PENDING
(case-insensitive) is returned in row order — duplicates included. -/
def get_target_users (targetData : List (List String)) : List QueueItem :=
  if targetData.length < 2 then []
  else
    let headers := targetData.headD []
    if headers.length < 2 ∨
        ¬ List.IsInfix "USERNAME".data (upperStr (headers.getD 0 "")).data ∨
        ¬ List.IsInfix "STATUS".data (upperStr (headers.getD 1 "")).data then
      []
    else
      (targetData.drop 1).enum.filterMap fun e =>
        let row := e.2
        if 2 ≤ row.length then
          let username := pyStrip (row.getD 0 "")
          let status := upperStr (pyStrip (row.getD 1 ""))
          if username ≠ "" ∧ status = "PENDING" then
            some ⟨username, e.1 + 2⟩
          else none
        else none

/-! ## The main cycle (main, lines 905-972) -/

/-- batch_size (line 72). -/
def BATCH_SIZE : Nat := 3

/-- One queued Target-sheet status write (lines 928-932, 938-942): the range
update B..D later writes status, completion timestamp and notes. -/
structure TargetUpdate where
  rowIndex : Nat
  status : String
  notes : String
deriving DecidableEq, Repr

/-- The in-flight state of the scraping loop: the accumulated batch and the
export invocations already made (each with the profile batch and target
updates it was handed). -/
structure CycleState where
  profiles : List Profile
  updates : List TargetUpdate
  exports : List (List Profile × List TargetUpdate)
deriving Repr

/-- One iteration of the target loop (lines 913-967): a successful scrape
queues the profile and a Completed update, a failed scrape queues a Pending
update with a retry note; when either accumulator reaches batch_size the
batch is exported and both accumulators are cleared. -/
def stepTarget (scrape : String → Option Profile) (st : CycleState)
    (t : QueueItem) : CycleState :=
  match scrape t.username with
  | some p =>
    let profiles := st.profiles ++ [p]
    let updates := st.updates ++
      [⟨t.rowIndex, "Completed", "Successfully scraped with post data"⟩]
    if BATCH_SIZE ≤ profiles.length ∨ BATCH_SIZE ≤ updates.length then
      ⟨[], [], st.exports ++ [(profiles, updates)]⟩
    else ⟨profiles, updates, st.exports⟩
  | none =>
    let updates := st.updates ++
      [⟨t.rowIndex, "Pending", "Scraping failed - will retry"⟩]
    if BATCH_SIZE ≤ st.profiles.length ∨ BATCH_SIZE ≤ updates.length then
      ⟨[], [], st.exports ++ [(st.profiles, updates)]⟩
    else ⟨st.profiles, updates, st.exports⟩

/-- The whole cycle: every queue item is processed in order and a final
export flushes a non-empty remainder (lines 970-972). -/
def runCycle (scrape : String → Option Profile) (targets : List QueueItem) :
    List (List Profile × List TargetUpdate) :=
  let st := targets.foldl (stepTarget scrape) ⟨[], [], []⟩
  if st.profiles.isEmpty ∧ st.updates.isEmpty then st.exports
  else st.exports ++ [(st.profiles, st.updates)]

/-- Values written by the Target status range update B..D (lines 696-707):
the completion timestamp cell is filled only for a Completed status; `ts` is
the wall-clock string. -/
def targetUpdateValues (ts : String) (u : TargetUpdate) : List String :=
  [u.status, if upperStr u.status = "COMPLETED" then ts else "", u.notes]

/-- Committing one queued status write to the Target sheet. -/
def applyTargetUpdate (ts : String) (sheet : List (List String))
    (u : TargetUpdate) : List (List String) :=
  let old := sheet.getD (u.rowIndex - 1) []
  sheet.set (u.rowIndex - 1)
    (old.take 1 ++ targetUpdateValues ts u ++ old.drop 4)

/-- Number of status writes queued across all export invocations of a
cycle. -/
def totalUpdates (exps : List (List Profile × List TargetUpdate)) : Nat :=
  (exps.map fun e => e.2.length).sum

/-- Actions an action list issues against a given 1-based row: only a ranged
update with that row index writes into the row. -/
def touchesRow (i : Nat) : SheetAction → Bool
  | .update j _ => j == i
  | _ => false

/-- Whether an action appends a row carrying the given identifier key. -/
def appendsKey (nick : String) : SheetAction → Bool
  | .append r => rowKey r == some nick
  | _ => false

/-! ## Concrete scenario data -/

/-- Stored row of the no-erase scenario: city "Lahore", followers "100". -/
def lahoreRow : List String :=
  ["d1", "t1", "x", "", "Lahore", "m", "", "", "", "100", "", "", "", "", "",
   ""]

/-- Main-sheet snapshot holding the header and the Lahore row. -/
def lahoreSheet : List (List String) := [SHEET_HEADERS, lahoreRow]

/-- The freshly scraped record of the scenario: city empty, followers "120",
every other compared attribute equal to the stored row. -/
def lahoreProfile : Profile :=
  ⟨"d2", "t2", "x", "", "", "m", "", "", "", "120", "", "", "", "", "", ""⟩

/-- The 16-cell row the export loop builds for lahoreProfile. -/
def lahoreNewRow : List String := buildRow [] lahoreProfile

/-- Stored row used by the insertion-ordering scenario. -/
def karachiRow : List String :=
  ["d0", "t0", "x", "", "Karachi", "", "", "", "", "", "", "", "", "", "", ""]

/-- Snapshot with a header and one existing data row. -/
def c3Sheet : List (List String) := [SHEET_HEADERS, karachiRow]

/-- A record whose identifier is absent from c3Sheet. -/
def newcomer : Profile :=
  ⟨"d9", "t9", "n", "", "", "", "", "", "", "", "", "", "", "", "", ""⟩

/-- Its built row. -/
def newcomerRow : List String := buildRow [] newcomer

/-- Scraped record for queue item a. -/
def profA : Profile :=
  ⟨"d", "t", "a", "", "", "", "", "", "", "", "", "", "", "", "", ""⟩

/-- Scraped record for queue item c. -/
def profC : Profile :=
  ⟨"d", "t", "c", "", "", "", "", "", "", "", "", "", "", "", "", ""⟩

/-- Scraper oracle of the three-item scenario: a and c succeed, b fails. -/
def scrapeC5 : String → Option Profile :=
  fun s => if s = "a" then some profA else if s = "c" then some profC
    else none

/-- The three PENDING queue items a, b, c at rows 2, 3, 4. -/
def queueC5 : List QueueItem := [⟨"a", 2⟩, ⟨"b", 3⟩, ⟨"c", 4⟩]

/-- Target-sheet values with two PENDING rows bearing the same username. -/
def dupQueueData : List (List String) :=
  [["USERNAME", "STATUS"], ["a", "PENDING"], ["a", "PENDING"]]

/-- Record returned by the scraper for username a in the duplicate
scenario. -/
def dupProfile : Profile :=
  ⟨"d", "t", "a", "", "", "", "", "", "", "", "", "", "", "", "", ""⟩

/-- Scraper oracle for the duplicate scenario. -/
def dupScrape : String → Option Profile :=
  fun s => if s = "a" then some dupProfile else none

/-- A profile whose INTRO holds the already-cleaned doubly-spaced
placeholder, as scrape_profile produces at line 495. -/
def introProfile : Profile :=
  ⟨"d", "t", "u", "", "", "", "", "", "", "", "", "", "", "", "",
   clean_text "not  set"⟩

/-- A pair of profiles with the same identifier but different followers
counts, for the intra-batch duplicate scenario. -/
def dupBatchA : Profile :=
  ⟨"d", "t", "x", "", "", "", "", "", "", "100", "", "", "", "", "", ""⟩

/-- Second record of the intra-batch duplicate pair. -/
def dupBatchB : Profile :=
  ⟨"d", "t", "x", "", "", "", "", "", "", "120", "", "", "", "", "", ""⟩

/-- Snapshot with duplicate data rows for the same identifier, a case the
snapshot dict collapses to the last row. -/
def dupRowFirst : List String :=
  ["d1", "t1", "y", "", "Lahore", "", "", "", "", "1", "", "", "", "", "", ""]

/-- The later duplicate row for the same identifier y. -/
def dupRowLast : List String :=
  ["d2", "t2", "y", "", "Multan", "", "", "", "", "2", "", "", "", "", "", ""]

/-- Sheet holding the header and the two duplicate rows. -/
def dupSheet : List (List String) := [SHEET_HEADERS, dupRowFirst, dupRowLast]

/-- A record for the duplicated identifier y. -/
def dupYProfile : Profile :=
  ⟨"d3", "t3", "y", "", "", "", "", "", "", "5", "", "", "", "", "", ""⟩

/-- A record whose compared values all equal the stored Lahore row. -/
def unchangedProfile : Profile :=
  ⟨"d9", "t9", "x", "", "Lahore", "m", "", "", "", "100", "", "", "", "", "",
   ""⟩

/-! ## Helper lemmas: stripping is idempotent -/

theorem dropWhile_head?_not {α : Type} (p : α → Bool) (l : List α) {c : α}
    (h : (l.dropWhile p).head? = some c) : p c = false := by
  have hm := List.head?_dropWhile_not p l
  rw [h] at hm
  exact hm

theorem getLast?_of_suffix {α : Type} {l₁ l₂ : List α} (h : l₁ <:+ l₂)
    (hne : l₁ ≠ []) : l₂.getLast? = l₁.getLast? := by
  obtain ⟨t, rfl⟩ := h
  rw [List.getLast?_append]
  cases hg : l₁.getLast? with
  | none => exact absurd (List.getLast?_eq_none_iff.mp hg) hne
  | some c => rfl

theorem stripChars_idem (l : List Char) :
    stripChars (stripChars l) = stripChars l := by
  unfold stripChars
  have h1 : ((l.dropWhile isPySpace).reverse.dropWhile
        isPySpace).reverse.dropWhile isPySpace
      = ((l.dropWhile isPySpace).reverse.dropWhile isPySpace).reverse := by
    rw [List.dropWhile_eq_self_iff]
    intro hl hp
    have hBne : (l.dropWhile isPySpace).reverse.dropWhile isPySpace ≠ [] := by
      intro hB0
      rw [hB0] at hl
      simp at hl
    have hhead : ((l.dropWhile isPySpace).reverse.dropWhile
        isPySpace).reverse.head? = some
        (((l.dropWhile isPySpace).reverse.dropWhile
          isPySpace).reverse.get ⟨0, hl⟩) := by
      rw [List.head?_eq_getElem?, List.get_eq_getElem,
        List.getElem?_eq_getElem hl]
    have hchain : ((l.dropWhile isPySpace).reverse.dropWhile
        isPySpace).reverse.head? = (l.dropWhile isPySpace).head? := by
      rw [List.head?_reverse,
        ← getLast?_of_suffix (List.dropWhile_suffix isPySpace) hBne,
        List.getLast?_reverse]
    have hc := hchain.symm.trans hhead
    have hfalse := dropWhile_head?_not isPySpace l hc
    rw [hp] at hfalse
    exact absurd hfalse (by decide)
  rw [h1, List.reverse_reverse, List.dropWhile_idempotent]

theorem data_mk (l : List Char) : (String.mk l).data = l := rfl

theorem pyStrip_idem (s : String) : pyStrip (pyStrip s) = pyStrip s := by
  unfold pyStrip
  rw [data_mk, stripChars_idem]

/-! ## Helper lemmas: rows built for profiles -/

theorem buildRow_length (tm : List (String × List String)) (p : Profile) :
    (buildRow tm p).length = 16 := rfl

theorem buildRow_getD_two (tm : List (String × List String)) (p : Profile) :
    (buildRow tm p).getD 2 "" = pyStrip p.nickname := rfl

theorem rowKey_buildRow (tm : List (String × List String)) (p : Profile)
    (hne : pyStrip p.nickname ≠ "") :
    rowKey (buildRow tm p) = some (pyStrip p.nickname) := by
  unfold rowKey
  rw [buildRow_getD_two, pyStrip_idem]
  simp [buildRow_length, hne]

theorem needs_update_append_self (tm : List (String × List String))
    (p : Profile) (t : List String) :
    needs_update (buildRow tm p ++ t) (buildRow tm p) = false := by
  have hget : ∀ n, n < 16 →
      (buildRow tm p ++ t).getD n "" = (buildRow tm p).getD n "" := by
    intro n hn
    exact List.getD_append _ _ _ _ (by rw [buildRow_length]; exact hn)
  unfold needs_update
  rw [Bool.or_eq_false_iff]
  constructor
  · rw [List.any_eq_false]
    intro i hi
    have hlt : i < 16 := by
      simp only [key_fields, List.mem_cons, List.not_mem_nil, or_false] at hi
      rcases hi with rfl | rfl | rfl | rfl | rfl | rfl | rfl | rfl | rfl | rfl
        <;> decide
    have h2 := hget i hlt
    rw [List.getD_eq_getElem?_getD, List.getD_eq_getElem?_getD] at h2
    simp [h2]
  · rw [hget 3 (by omega)]
    simp

/-! ## Helper lemmas: the last-wins snapshot index -/

theorem getD_mem_of_lt {α : Type} (l : List α) (n : Nat) (d : α)
    (h : n < l.length) : l.getD n d ∈ l := by
  rw [List.getD_eq_getElem?_getD, List.getElem?_eq_getElem h]
  exact List.getElem_mem h

theorem lastMatch_eq_none_iff {nick : String} {s : Nat}
    {rs : List (List String)} :
    lastMatch nick s rs = none ↔ ∀ r ∈ rs, rowKey r ≠ some nick := by
  induction rs generalizing s with
  | nil => simp [lastMatch]
  | cons r₀ rest ih =>
    cases h : lastMatch nick (s + 1) rest with
    | some hit =>
      simp only [lastMatch, h]
      constructor
      · intro hc
        simp at hc
      · intro hall
        have hnone : lastMatch nick (s + 1) rest = none :=
          (ih (s := s + 1)).mpr fun r hr => hall r (List.mem_cons_of_mem _ hr)
        rw [h] at hnone
        simp at hnone
    | none =>
      simp only [lastMatch, h]
      split_ifs with hk
      · constructor
        · intro hc
          simp at hc
        · intro hall
          exact absurd hk (hall r₀ (List.mem_cons_self _ _))
      · constructor
        · intro _ r hr
          rcases List.mem_cons.mp hr with rfl | hr'
          · exact hk
          · exact (ih (s := s + 1)).mp h r hr'
        · intro _
          rfl

theorem lastMatch_eq_some {nick : String} {s i : Nat} {r : List String}
    {rs : List (List String)} (h : lastMatch nick s rs = some (i, r)) :
    ∃ j, j < rs.length ∧ i = s + j ∧ rs.getD j [] = r ∧
      rowKey r = some nick ∧
      ∀ k, j < k → k < rs.length → rowKey (rs.getD k []) ≠ some nick := by
  induction rs generalizing s with
  | nil => exact Option.noConfusion h
  | cons r₀ rest ih =>
    cases hin : lastMatch nick (s + 1) rest with
    | some hit =>
      simp only [lastMatch, hin] at h
      obtain rfl := Option.some.inj h
      obtain ⟨j', hj', hi', hget', hkey', hafter'⟩ := ih (s := s + 1) hin
      refine ⟨j' + 1, by simpa using hj', by omega, by simpa using hget',
        hkey', ?_⟩
      intro k hk hklen
      cases k with
      | zero => omega
      | succ k' =>
        rw [List.getD_cons_succ]
        exact hafter' k' (by omega) (by simpa using hklen)
    | none =>
      simp only [lastMatch, hin] at h
      split_ifs at h with hk
      obtain ⟨rfl, rfl⟩ := Prod.mk.inj (Option.some.inj h)
      refine ⟨0, by simp, by omega, by simp, hk, ?_⟩
      intro k hk0 hklen
      cases k with
      | zero => omega
      | succ k' =>
        rw [List.getD_cons_succ]
        exact lastMatch_eq_none_iff.mp hin _
          (getD_mem_of_lt _ _ _ (by simpa using hklen))

theorem lastMatch_eq_some_of {nick : String} {j : Nat}
    {rs : List (List String)} (s : Nat) (hj : j < rs.length)
    (hkey : rowKey (rs.getD j []) = some nick)
    (hafter : ∀ k, j < k → k < rs.length →
      rowKey (rs.getD k []) ≠ some nick) :
    lastMatch nick s rs = some (s + j, rs.getD j []) := by
  induction rs generalizing s j with
  | nil => simp at hj
  | cons r₀ rest ih =>
    cases j with
    | zero =>
      have hin : lastMatch nick (s + 1) rest = none := by
        rw [lastMatch_eq_none_iff]
        intro r hr
        obtain ⟨n, hn, rfl⟩ := List.mem_iff_getElem.mp hr
        have hgd : rest.getD n [] = rest[n] := by
          rw [List.getD_eq_getElem?_getD, List.getElem?_eq_getElem hn]
          rfl
        rw [← hgd]
        have hx := hafter (n + 1) (by omega) (by simpa using hn)
        rwa [List.getD_cons_succ] at hx
      rw [List.getD_cons_zero] at hkey ⊢
      simp only [lastMatch, hin, hkey]
      simp
    | succ j' =>
      have hin := ih (s := s + 1) (j := j') (by simpa using hj)
        (by rw [← List.getD_cons_succ (x := r₀)]; exact hkey)
        (fun k hk hklen => by
          have hx := hafter (k + 1) (by omega) (by simpa using hklen)
          rwa [List.getD_cons_succ] at hx)
      simp only [lastMatch, hin, List.getD_cons_succ]
      have harith : s + 1 + j' = s + (j' + 1) := by omega
      rw [harith]

/-! ## Helper lemmas: lastMatch under set and append -/

theorem getD_set_self {α : Type} (l : List α) (n : Nat) (x d : α)
    (h : n < l.length) : (l.set n x).getD n d = x := by
  rw [List.getD_eq_getElem?_getD, List.getElem?_set_self h]
  rfl

theorem getD_set_other {α : Type} (l : List α) (n m : Nat) (x d : α)
    (h : n ≠ m) : (l.set n x).getD m d = l.getD m d := by
  rw [List.getD_eq_getElem?_getD, List.getElem?_set_ne h,
    ← List.getD_eq_getElem?_getD]

theorem lastMatch_set_hit {nick : String} {j : Nat}
    {rs : List (List String)} {r' : List String} (s : Nat)
    (hj : j < rs.length) (hnew : rowKey r' = some nick)
    (hafter : ∀ k, j < k → k < rs.length →
      rowKey (rs.getD k []) ≠ some nick) :
    lastMatch nick s (rs.set j r') = some (s + j, r') := by
  have h := @lastMatch_eq_some_of nick j (rs.set j r') s
    (by rw [List.length_set]; exact hj)
    (by rw [getD_set_self _ _ _ _ hj]; exact hnew)
    (fun k hk hklen => by
      rw [getD_set_other _ _ _ _ _ (by omega)]
      exact hafter k hk (by rwa [List.length_set] at hklen))
  rwa [getD_set_self _ _ _ _ hj] at h

theorem lastMatch_set_frame {nick : String} {m : Nat}
    {rs : List (List String)} {r' : List String} (s : Nat)
    (hold : rowKey (rs.getD m []) ≠ some nick)
    (hnew : rowKey r' ≠ some nick) :
    lastMatch nick s (rs.set m r') = lastMatch nick s rs := by
  cases h : lastMatch nick s rs with
  | some hit =>
    obtain ⟨i, r⟩ := hit
    obtain ⟨j, hj, hi, hget, hkey, hafter⟩ := lastMatch_eq_some h
    have hjm : j ≠ m := by
      intro hjm
      rw [← hjm, hget] at hold
      exact hold hkey
    have hset := @lastMatch_eq_some_of nick j (rs.set m r') s
      (by rw [List.length_set]; exact hj)
      (by rw [getD_set_other _ _ _ _ _ (Ne.symm hjm), hget]; exact hkey)
      (fun k hk hklen => by
        rw [List.length_set] at hklen
        by_cases hkm : k = m
        · rw [hkm, getD_set_self _ _ _ _ (hkm ▸ hklen)]
          exact hnew
        · rw [getD_set_other _ _ _ _ _ (fun hc => hkm hc.symm)]
          exact hafter k hk hklen)
    rw [getD_set_other _ _ _ _ _ (Ne.symm hjm), hget] at hset
    rw [hi]
    exact hset
  | none =>
    rw [lastMatch_eq_none_iff] at h ⊢
    intro r hr
    rcases List.mem_or_eq_of_mem_set hr with hr' | rfl
    · exact h r hr'
    · exact hnew

theorem lastMatch_append {nick : String} {s : Nat} {rs : List (List String)}
    (r : List String) :
    lastMatch nick s (rs ++ [r]) =
      if rowKey r = some nick then some (s + rs.length, r)
      else lastMatch nick s rs := by
  split_ifs with hk
  · have h := @lastMatch_eq_some_of nick rs.length (rs ++ [r]) s
      (by simp)
      (by rw [List.getD_append_right _ _ _ _ (le_refl _), Nat.sub_self,
            List.getD_cons_zero]
          exact hk)
      (fun k hkk hklen => by
        simp only [List.length_append, List.length_singleton] at hklen
        omega)
    rwa [List.getD_append_right _ _ _ _ (le_refl _), Nat.sub_self,
      List.getD_cons_zero] at h
  · cases h : lastMatch nick s rs with
    | some hit =>
      obtain ⟨i, rr⟩ := hit
      obtain ⟨j, hj, hi, hget, hkey, hafter⟩ := lastMatch_eq_some h
      have hx := @lastMatch_eq_some_of nick j (rs ++ [r]) s
        (by simp only [List.length_append, List.length_singleton]; omega)
        (by rw [List.getD_append _ _ _ _ hj, hget]; exact hkey)
        (fun k hkk hklen => by
          simp only [List.length_append, List.length_singleton] at hklen
          by_cases hkr : k = rs.length
          · rw [hkr, List.getD_append_right _ _ _ _ (le_refl _),
              Nat.sub_self, List.getD_cons_zero]
            exact hk
          · rw [List.getD_append _ _ _ _ (by omega)]
            exact hafter k hkk (by omega))
      rw [List.getD_append _ _ _ _ hj, hget] at hx
      rw [hi]
      exact hx
    | none =>
      rw [lastMatch_eq_none_iff] at h ⊢
      intro x hx
      rcases List.mem_append.mp hx with hx' | hx'
      · exact h x hx'
      · rw [List.mem_singleton.mp hx']
        exact hk

/-! ## Helper lemmas: findExisting under the batch's writes -/

theorem getD_drop_one {α : Type} (l : List α) (m : Nat) (d : α) :
    (l.drop 1).getD m d = l.getD (m + 1) d := by
  rw [List.getD_eq_getElem?_getD, List.getD_eq_getElem?_getD,
    List.getElem?_drop, Nat.add_comm]

theorem drop_one_set {α : Type} (l : List α) (n : Nat) (x : α) (hn : 1 ≤ n) :
    (l.set n x).drop 1 = (l.drop 1).set (n - 1) x := by
  cases l with
  | nil => simp
  | cons a t =>
    cases n with
    | zero => omega
    | succ n' => simp [List.set_cons_succ]

theorem drop_one_append {α : Type} (l : List α) (x : α) (h : l ≠ []) :
    (l ++ [x]).drop 1 = l.drop 1 ++ [x] := by
  cases l with
  | nil => exact absurd rfl h
  | cons a t => simp

theorem findExisting_spec {snapshot : List (List String)} {nick : String}
    {i : Nat} {er : List String}
    (h : findExisting snapshot nick = some (i, er)) :
    2 ≤ i ∧ i ≤ snapshot.length ∧ snapshot.getD (i - 1) [] = er ∧
      rowKey er = some nick ∧
      ∀ k, i < k → k ≤ snapshot.length →
        rowKey (snapshot.getD (k - 1) []) ≠ some nick := by
  obtain ⟨j, hj, hi, hget, hkey, hafter⟩ := lastMatch_eq_some h
  rw [List.length_drop] at hj
  refine ⟨by omega, by omega, ?_, hkey, ?_⟩
  · rw [← hget, getD_drop_one]
    congr 1
    omega
  · intro k hk hklen
    have hrw : snapshot.getD (k - 1) [] = (snapshot.drop 1).getD (k - 2) [] := by
      rw [getD_drop_one]
      congr 1
      omega
    rw [hrw]
    exact hafter (k - 2) (by omega) (by rw [List.length_drop]; omega)

theorem findExisting_eq_none_iff {snapshot : List (List String)}
    {nick : String} :
    findExisting snapshot nick = none ↔
      ∀ r ∈ snapshot.drop 1, rowKey r ≠ some nick :=
  lastMatch_eq_none_iff

theorem findExisting_append {snapshot : List (List String)} {nick : String}
    (r : List String) (hne : snapshot ≠ []) :
    findExisting (snapshot ++ [r]) nick =
      if rowKey r = some nick then some (snapshot.length + 1, r)
      else findExisting snapshot nick := by
  unfold findExisting
  rw [drop_one_append _ _ hne, lastMatch_append]
  have hlen : 2 + (snapshot.drop 1).length = snapshot.length + 1 := by
    rw [List.length_drop]
    cases snapshot with
    | nil => exact absurd rfl hne
    | cons a t => simp only [List.length_cons]; omega
  rw [hlen]

theorem findExisting_set_frame {snapshot : List (List String)}
    {nick : String} {i : Nat} {r' : List String} (hi : 2 ≤ i)
    (hold : rowKey (snapshot.getD (i - 1) []) ≠ some nick)
    (hnew : rowKey r' ≠ some nick) :
    findExisting (snapshot.set (i - 1) r') nick =
      findExisting snapshot nick := by
  unfold findExisting
  rw [drop_one_set _ _ _ (by omega)]
  apply lastMatch_set_frame
  · rw [getD_drop_one]
    have hidx : i - 1 - 1 + 1 = i - 1 := by omega
    rw [hidx]
    exact hold
  · exact hnew

theorem findExisting_set_hit {snapshot : List (List String)} {nick : String}
    {i : Nat} {old r' : List String}
    (h : findExisting snapshot nick = some (i, old))
    (hnew : rowKey r' = some nick) :
    findExisting (snapshot.set (i - 1) r') nick = some (i, r') := by
  unfold findExisting at h ⊢
  obtain ⟨j, hj, hi, hget, hkey, hafter⟩ := lastMatch_eq_some h
  rw [drop_one_set _ _ _ (by omega)]
  have hidx : i - 1 - 1 = j := by omega
  rw [hidx, hi]
  exact lastMatch_set_hit 2 hj hnew hafter

/-! ## Claim C1 (no-erase) -/

/-- C1 counterexample: in the Lahore scenario the batch issues exactly one
ranged update, yet after applying it the city cell no longer holds "Lahore"
(the full 16-cell row is written, including the empty city value), so the
claimed no-erase property fails at this input. -/
theorem no_erase_counterexample :
    exportBatch lahoreSheet [] [lahoreProfile] =
      [SheetAction.update 2 lahoreNewRow] ∧
    ((applyActions lahoreSheet
        (exportBatch lahoreSheet [] [lahoreProfile])).getD 1 []).getD 4 ""
      ≠ "Lahore" := by
  constructor
  · decide
  · decide

/-- C1 amended: an empty scraped value never by itself triggers an update,
but a row update triggered by another changed compared value writes the full
16-cell row: in the scenario exactly one update call is issued, the followers
cell becomes "120", and the city cell is overwritten with the empty string
rather than keeping "Lahore". -/
theorem no_erase_amended :
    exportBatch lahoreSheet [] [lahoreProfile] =
      [SheetAction.update 2 lahoreNewRow] ∧
    applyActions lahoreSheet (exportBatch lahoreSheet [] [lahoreProfile]) =
      [SHEET_HEADERS, lahoreNewRow] ∧
    lahoreNewRow.getD 9 "" = "120" ∧
    lahoreNewRow.getD 4 "" = "" ∧
    needs_update lahoreRow
      (["d2", "t2", "x", "", "", "m", "", "", "", "100", "", "", "", "", "",
        ""]) = false := by
  refine ⟨by decide, by decide, by decide, by decide, by decide⟩

/-! ## Claim C3 (insertion ordering) -/

theorem applyActions_append_rows (rows : List (List String)) :
    ∀ sheet, applyActions sheet (rows.map SheetAction.append) =
      sheet ++ rows := by
  induction rows with
  | nil =>
    intro sheet
    simp [applyActions]
  | cons r rest ih =>
    intro sheet
    have hstep : applyActions sheet ((r :: rest).map SheetAction.append) =
        applyActions (sheet ++ [r]) (rest.map SheetAction.append) := rfl
    rw [hstep, ih (sheet ++ [r]), List.append_assoc]
    rfl

theorem exportBatch_all_new (snapshot : List (List String))
    (tm : List (String × List String)) :
    ∀ batch : List Profile, headerMissing snapshot = false →
      (∀ p ∈ batch, pyStrip p.nickname ≠ "" ∧
        findExisting snapshot (pyStrip p.nickname) = none) →
      exportBatch snapshot tm batch =
        batch.map fun p => SheetAction.append (buildRow tm p) := by
  intro batch hheader
  induction batch with
  | nil =>
    intro _
    simp [exportBatch, hheader]
  | cons p rest ih =>
    intro hnew
    obtain ⟨hne, hnone⟩ := hnew p (List.mem_cons_self _ _)
    have hproc : processProfile snapshot tm p =
        some (SheetAction.append (buildRow tm p)) := by
      simp only [processProfile, hne, if_neg, hnone]
      simp [hne]
    have ht := ih fun q hq => hnew q (List.mem_cons_of_mem _ hq)
    simp only [exportBatch, hheader, Bool.false_eq_true, if_false,
      List.filterMap_cons, hproc, List.map_cons] at ht ⊢
    rw [ht]

/-- C3 counterexample: a record whose identifier is absent is appended at
the bottom of the sheet (row 3), while the pre-existing data row keeps
row 2 — the new row is not inserted immediately below the header and
existing rows are not shifted down. -/
theorem insertion_order_counterexample :
    exportBatch c3Sheet [] [newcomer] = [SheetAction.append newcomerRow] ∧
    applyActions c3Sheet (exportBatch c3Sheet [] [newcomer]) =
      [SHEET_HEADERS, karachiRow, newcomerRow] ∧
    (applyActions c3Sheet (exportBatch c3Sheet [] [newcomer])).getD 1 [] ≠
      newcomerRow := by
  refine ⟨by decide, by decide, by decide⟩

/-- C3 amended: rows for new identifiers are appended below the existing
rows at the bottom of the sheet, in batch order, with no sorting by capture
time and no shifting of existing rows: for a batch of all-new identifiers
the writes are exactly one append_row per record in batch order and the
final sheet is the snapshot followed by the new rows. -/
theorem insertion_order_amended (snapshot : List (List String))
    (tm : List (String × List String)) (batch : List Profile)
    (hheader : headerMissing snapshot = false)
    (hnew : ∀ p ∈ batch, pyStrip p.nickname ≠ "" ∧
      findExisting snapshot (pyStrip p.nickname) = none) :
    exportBatch snapshot tm batch =
      batch.map (fun p => SheetAction.append (buildRow tm p)) ∧
    applyActions snapshot (exportBatch snapshot tm batch) =
      snapshot ++ batch.map (buildRow tm) := by
  have h1 := exportBatch_all_new snapshot tm batch hheader hnew
  refine ⟨h1, ?_⟩
  rw [h1]
  have h2 := applyActions_append_rows (batch.map (buildRow tm)) snapshot
  rw [List.map_map] at h2
  exact h2

/-- C3 amended witness: the scenario instance of insertion_order_amended. -/
theorem insertion_order_amended_witness :
    headerMissing c3Sheet = false ∧
    exportBatch c3Sheet [] [newcomer] =
      [newcomer].map (fun p => SheetAction.append (buildRow [] p)) ∧
    applyActions c3Sheet (exportBatch c3Sheet [] [newcomer]) =
      c3Sheet ++ [newcomer].map (buildRow []) :=
  ⟨by decide,
    (insertion_order_amended c3Sheet [] [newcomer] (by decide) (by decide)).1,
    (insertion_order_amended c3Sheet [] [newcomer] (by decide)
      (by decide)).2⟩

/-! ## Claim C5 (scraper-failure handling) -/

/-- C5 counterexample: in the three-item scenario the failed item b is
committed with status "Pending" and a retry note, not FAILED, so the claimed
statuses a=COMPLETED, b=FAILED, c=COMPLETED do not hold. -/
theorem scraper_failure_counterexample :
    runCycle scrapeC5 queueC5 =
      [([profA, profC],
        [⟨2, "Completed", "Successfully scraped with post data"⟩,
         ⟨3, "Pending", "Scraping failed - will retry"⟩,
         ⟨4, "Completed", "Successfully scraped with post data"⟩])] ∧
    upperStr "Pending" ≠ "FAILED" := by
  constructor
  · decide
  · decide

/-- C5 amended: a scrape failure queues a "Pending" status with the note
"Scraping failed - will retry" (so the item will be re-claimed on a later
run) and the cycle continues; the scenario produces exactly one export
invocation carrying the two successful records and the three status writes,
and reconciling those records against a header-only sheet appends exactly
two new rows. -/
theorem scraper_failure_amended :
    runCycle scrapeC5 queueC5 =
      [([profA, profC],
        [⟨2, "Completed", "Successfully scraped with post data"⟩,
         ⟨3, "Pending", "Scraping failed - will retry"⟩,
         ⟨4, "Completed", "Successfully scraped with post data"⟩])] ∧
    exportBatch [SHEET_HEADERS] [] [profA, profC] =
      [SheetAction.append (buildRow [] profA),
       SheetAction.append (buildRow [] profC)] ∧
    (applyActions [SHEET_HEADERS]
      (exportBatch [SHEET_HEADERS] [] [profA, profC])).length = 3 := by
  refine ⟨by decide, by decide, by decide⟩

/-! ## Claim C7 (retry policy) -/

/-- C7 counterexample: a non-throttle failure is caught and logged — the
wrapper returns normally with one attempt instead of propagating the error;
and a throttle failure whose single retry also fails returns normally after
two attempts — no QuotaExhausted error ever surfaces to the caller. -/
theorem throttle_retry_counterexample :
    updateWithRetry CallOutcome.otherError CallOutcome.ok =
      Except.ok ⟨1, false, false⟩ ∧
    updateWithRetry CallOutcome.throttle429 CallOutcome.throttle429 =
      Except.ok ⟨2, true, false⟩ := ⟨rfl, rfl⟩

/-- C7 amended: the wrapper never raises to the caller; a throttle failure is
retried exactly once after the backoff sleep (two attempts total) and
succeeds only if the retry succeeds, while a non-throttle failure is logged
without any retry (one attempt). -/
theorem throttle_retry_amended (first retryOutcome : CallOutcome) :
    updateWithRetry first retryOutcome =
      Except.ok (match first with
        | .ok => ⟨1, false, true⟩
        | .throttle429 => ⟨2, true, decide (retryOutcome = CallOutcome.ok)⟩
        | .otherError => ⟨1, false, false⟩) := by
  cases first <;> cases retryOutcome <;> rfl

/-! ## Claim C8 (duplicate-PENDING tolerance) -/

/-- C8 counterexample: with two PENDING rows both naming "a", the scan
returns both occurrences and the cycle processes both (each is scraped and
committed Completed) — the later duplicate is not ignored. -/
theorem duplicate_pending_counterexample :
    get_target_users dupQueueData = [⟨"a", 2⟩, ⟨"a", 3⟩] ∧
    runCycle dupScrape (get_target_users dupQueueData) =
      [([dupProfile, dupProfile],
        [⟨2, "Completed", "Successfully scraped with post data"⟩,
         ⟨3, "Completed", "Successfully scraped with post data"⟩])] := by
  constructor
  · decide
  · decide

/-! ## Claim C8 amended: every wellformed PENDING occurrence is returned and
processed -/

theorem totalUpdates_nil : totalUpdates [] = 0 := rfl

theorem totalUpdates_append_one
    (l : List (List Profile × List TargetUpdate))
    (e : List Profile × List TargetUpdate) :
    totalUpdates (l ++ [e]) = totalUpdates l + e.2.length := by
  simp [totalUpdates]

theorem stepTarget_updates_count (scrape : String → Option Profile)
    (st : CycleState) (t : QueueItem) :
    totalUpdates (stepTarget scrape st t).exports +
      (stepTarget scrape st t).updates.length =
    totalUpdates st.exports + st.updates.length + 1 := by
  unfold stepTarget
  cases scrape t.username with
  | some p =>
    dsimp only
    split_ifs with h <;> simp [totalUpdates] <;> omega
  | none =>
    dsimp only
    split_ifs with h <;> simp [totalUpdates] <;> omega

theorem runCycle_updates_count (scrape : String → Option Profile)
    (targets : List QueueItem) :
    totalUpdates (runCycle scrape targets) = targets.length := by
  have hfold : ∀ st : CycleState,
      totalUpdates (targets.foldl (stepTarget scrape) st).exports +
        (targets.foldl (stepTarget scrape) st).updates.length =
      totalUpdates st.exports + st.updates.length + targets.length := by
    induction targets with
    | nil =>
      intro st
      simp
    | cons t ts ih =>
      intro st
      rw [List.foldl_cons, ih (stepTarget scrape st t),
        stepTarget_updates_count]
      simp only [List.length_cons]
      omega
  have h := hfold ⟨[], [], []⟩
  simp only [runCycle]
  split_ifs with hc
  · obtain ⟨hp, hu⟩ := hc
    rw [List.isEmpty_iff] at hu
    rw [hu] at h
    simpa [totalUpdates] using h
  · rw [totalUpdates_append_one]
    simp only [totalUpdates_nil, List.length_nil] at h
    dsimp only
    omega

/-- C8 counterexample helper is above; the amended claim: loadPending
returns every wellformed PENDING occurrence (duplicates included, in row
order, j is the 0-based data-row position) without crashing, and the cycle
commits exactly one status write per returned occurrence — later duplicates
are processed too, not ignored. -/
theorem duplicate_pending_amended (td : List (List String)) (j : Nat)
    (scrape : String → Option Profile)
    (hlen : 2 ≤ td.length)
    (hh0 : 2 ≤ (td.headD []).length)
    (hh1 : List.IsInfix "USERNAME".data
      (upperStr ((td.headD []).getD 0 "")).data)
    (hh2 : List.IsInfix "STATUS".data
      (upperStr ((td.headD []).getD 1 "")).data)
    (hj : j < (td.drop 1).length)
    (hrow : 2 ≤ ((td.drop 1).getD j []).length)
    (huser : pyStrip (((td.drop 1).getD j []).getD 0 "") ≠ "")
    (hstat : upperStr (pyStrip (((td.drop 1).getD j []).getD 1 "")) =
      "PENDING") :
    (⟨pyStrip (((td.drop 1).getD j []).getD 0 ""), j + 2⟩ : QueueItem) ∈
      get_target_users td ∧
    totalUpdates (runCycle scrape (get_target_users td)) =
      (get_target_users td).length := by
  refine ⟨?_, runCycle_updates_count scrape _⟩
  unfold get_target_users
  rw [if_neg (by omega)]
  rw [if_neg (by push_neg; exact ⟨by omega, hh1, hh2⟩)]
  apply List.mem_filterMap.mpr
  refine ⟨(j, (td.drop 1).getD j []), ?_, ?_⟩
  · rw [List.mk_mem_enum_iff_getElem?, List.getElem?_eq_getElem hj]
    congr 1
    rw [List.getD_eq_getElem?_getD, List.getElem?_eq_getElem hj]
    rfl
  · simp only [if_pos hrow]
    rw [if_pos ⟨huser, hstat⟩]

/-- C8 amended witness: the later duplicate occurrence (j = 1) of the
duplicate queue is returned at row 3 and the cycle commits one status per
occurrence. -/
theorem duplicate_pending_amended_witness :
    (2 ≤ dupQueueData.length ∧ 2 ≤ (dupQueueData.headD []).length ∧
      List.IsInfix "USERNAME".data
        (upperStr ((dupQueueData.headD []).getD 0 "")).data ∧
      List.IsInfix "STATUS".data
        (upperStr ((dupQueueData.headD []).getD 1 "")).data ∧
      1 < (dupQueueData.drop 1).length ∧
      2 ≤ ((dupQueueData.drop 1).getD 1 []).length ∧
      pyStrip (((dupQueueData.drop 1).getD 1 []).getD 0 "") ≠ "" ∧
      upperStr (pyStrip (((dupQueueData.drop 1).getD 1 []).getD 1 "")) =
        "PENDING") ∧
    ((⟨pyStrip (((dupQueueData.drop 1).getD 1 []).getD 0 ""), 1 + 2⟩ :
        QueueItem) ∈ get_target_users dupQueueData ∧
      totalUpdates (runCycle dupScrape (get_target_users dupQueueData)) =
        (get_target_users dupQueueData).length) :=
  ⟨by decide,
    duplicate_pending_amended dupQueueData 1 dupScrape (by decide)
      (by decide) (by decide) (by decide) (by decide) (by decide)
      (by decide) (by decide)⟩

/-! ## Claims C6 and C9: shared facts about row keys and the diff -/

theorem rowKey_eq_some_elim (r : List String) (k : String)
    (h : rowKey r = some k) :
    k = pyStrip (r.getD 2 "") ∧ k ≠ "" ∧ 2 < r.length := by
  have h' : (if 2 < r.length then
      (if pyStrip (r.getD 2 "") = "" then none
        else some (pyStrip (r.getD 2 ""))) else none) = some k := by
    rw [← h]
    rfl
  split_ifs at h' with h1 h2
  have hk := Option.some.inj h'
  exact ⟨hk.symm, fun hc => h2 (hc ▸ hk), h1⟩

theorem needs_update_eq_false_of (er row : List String)
    (heq : ∀ f ∈ key_fields, er.getD f "" = row.getD f "")
    (htags : er.getD 3 "" = row.getD 3 "") :
    needs_update er row = false := by
  unfold needs_update
  rw [Bool.or_eq_false_iff]
  constructor
  · rw [List.any_eq_false]
    intro f hf
    have h := heq f hf
    rw [List.getD_eq_getElem?_getD, List.getD_eq_getElem?_getD] at h
    simp [h]
  · have h := htags
    rw [List.getD_eq_getElem?_getD, List.getD_eq_getElem?_getD] at h
    simp [h]

theorem processProfile_blank (snapshot : List (List String))
    (tm : List (String × List String)) (p : Profile)
    (hblank : pyStrip p.nickname = "") :
    processProfile snapshot tm p = none := by
  unfold processProfile
  rw [if_pos hblank]

theorem processProfile_found (snapshot : List (List String))
    (tm : List (String × List String)) (p : Profile) {i : Nat}
    {er : List String} (hne : pyStrip p.nickname ≠ "")
    (hfound : findExisting snapshot (pyStrip p.nickname) = some (i, er)) :
    processProfile snapshot tm p =
      (if needs_update er (buildRow tm p)
        then some (SheetAction.update i (buildRow tm p)) else none) := by
  unfold processProfile
  rw [if_neg hne, hfound]

theorem processProfile_new (snapshot : List (List String))
    (tm : List (String × List String)) (p : Profile)
    (hne : pyStrip p.nickname ≠ "")
    (hnone : findExisting snapshot (pyStrip p.nickname) = none) :
    processProfile snapshot tm p =
      some (SheetAction.append (buildRow tm p)) := by
  unfold processProfile
  rw [if_neg hne, hnone]

theorem exportBatch_singleton (snapshot : List (List String))
    (tm : List (String × List String)) (p : Profile)
    (hheader : headerMissing snapshot = false) :
    exportBatch snapshot tm [p] = (processProfile snapshot tm p).toList := by
  unfold exportBatch
  rw [if_neg (by rw [hheader]; exact Bool.false_ne_true)]
  cases h : processProfile snapshot tm p <;> simp [h]

/-- C6: for an existing identifier whose batch record(s) carry compared
mutable column values all equal to the snapshot's stored row and an equal
TAGS cell, the batch issues no write for that stored row: no ranged update
targets its row index and no append carries its identifier. -/
theorem unchanged_row_untouched (snapshot : List (List String))
    (tm : List (String × List String)) (batch : List Profile)
    (nick : String) (i : Nat) (er : List String)
    (hheader : headerMissing snapshot = false)
    (hfound : findExisting snapshot nick = some (i, er))
    (hall : ∀ q ∈ batch, pyStrip q.nickname = nick →
      (∀ f ∈ key_fields, er.getD f "" = (buildRow tm q).getD f "") ∧
        er.getD 3 "" = (buildRow tm q).getD 3 "") :
    (exportBatch snapshot tm batch).all
      (fun a => !touchesRow i a && !appendsKey nick a) = true := by
  rw [List.all_eq_true]
  intro a ha
  unfold exportBatch at ha
  rw [if_neg (by rw [hheader]; exact Bool.false_ne_true)] at ha
  obtain ⟨q, hq, hqa⟩ := List.mem_filterMap.mp ha
  by_cases hqe : pyStrip q.nickname = ""
  · rw [processProfile_blank snapshot tm q hqe] at hqa
    exact absurd hqa (by simp)
  · by_cases hqn : pyStrip q.nickname = nick
    · obtain ⟨heq, htags⟩ := hall q hq hqn
      rw [processProfile_found snapshot tm q hqe
        (by rw [hqn]; exact hfound)] at hqa
      rw [needs_update_eq_false_of er (buildRow tm q) heq htags] at hqa
      simp at hqa
    · cases hfq : findExisting snapshot (pyStrip q.nickname) with
      | none =>
        rw [processProfile_new snapshot tm q hqe hfq] at hqa
        obtain rfl := Option.some.inj hqa
        simp [touchesRow, appendsKey, rowKey_buildRow tm q hqe, hqn]
      | some e =>
        obtain ⟨e1, e2⟩ := e
        rw [processProfile_found snapshot tm q hqe hfq] at hqa
        split_ifs at hqa with hnu
        · obtain rfl := Option.some.inj hqa
          obtain ⟨hi2, hilen, hrow_i, hkey_i, _⟩ := findExisting_spec hfound
          obtain ⟨he2, helen, hrow_e, hkey_e, _⟩ := findExisting_spec hfq
          have hne : e1 ≠ i := by
            intro hcontra
            rw [hcontra, hrow_i] at hrow_e
            rw [hrow_e] at hkey_i
            rw [hkey_i] at hkey_e
            exact hqn (Option.some.inj hkey_e).symm
          simp [touchesRow, appendsKey, hne]

/-- C9: with duplicate data rows for one identifier, the snapshot dict
retains only the last: findExisting returns the last matching row, a record
for that identifier produces at most one action — a ranged update targeting
the last duplicate's index with the record's full row — and the earlier
duplicate row is never written. -/
theorem duplicate_snapshot_last_wins (snapshot : List (List String))
    (tm : List (String × List String)) (p : Profile)
    (nick : String) (i j : Nat) (rj : List String)
    (hheader : headerMissing snapshot = false)
    (hi2 : 2 ≤ i) (hlt : i < j)
    (hkey_i : rowKey (snapshot.getD (i - 1) []) = some nick)
    (hfound : findExisting snapshot nick = some (j, rj))
    (hp : pyStrip p.nickname = nick) :
    rowKey rj = some nick ∧ snapshot.getD (j - 1) [] = rj ∧
    exportBatch snapshot tm [p] =
      (if needs_update rj (buildRow tm p)
        then [SheetAction.update j (buildRow tm p)] else []) ∧
    (exportBatch snapshot tm [p]).all (fun a => !touchesRow i a) = true := by
  obtain ⟨hj2, hjlen, hrow_j, hkey_j, hafter⟩ := findExisting_spec hfound
  have hnick_ne : nick ≠ "" := (rowKey_eq_some_elim _ _ hkey_j).2.1
  have hexp : exportBatch snapshot tm [p] =
      (if needs_update rj (buildRow tm p)
        then [SheetAction.update j (buildRow tm p)] else []) := by
    rw [exportBatch_singleton snapshot tm p hheader,
      processProfile_found snapshot tm p (by rw [hp]; exact hnick_ne)
        (by rw [hp]; exact hfound)]
    split_ifs with hnu
    · rfl
    · rfl
  refine ⟨hkey_j, hrow_j, hexp, ?_⟩
  rw [hexp]
  split_ifs with hnu
  · rw [List.all_eq_true]
    intro a ha
    rw [List.mem_singleton.mp ha]
    have hji : (j == i) = false := by
      rw [beq_eq_false_iff_ne]
      omega
    simp [touchesRow, hji]
  · rfl

/-- C6 witness: a record identical (on compared columns and tags) to the
stored Lahore row generates no write. -/
theorem unchanged_row_untouched_witness :
    (headerMissing lahoreSheet = false ∧
      findExisting lahoreSheet "x" = some (2, lahoreRow) ∧
      (∀ q ∈ [unchangedProfile], pyStrip q.nickname = "x" →
        (∀ f ∈ key_fields,
          lahoreRow.getD f "" = (buildRow [] q).getD f "") ∧
          lahoreRow.getD 3 "" = (buildRow [] q).getD 3 "")) ∧
    (exportBatch lahoreSheet [] [unchangedProfile]).all
      (fun a => !touchesRow 2 a && !appendsKey "x" a) = true :=
  ⟨⟨by decide, by decide, by decide⟩,
    unchanged_row_untouched lahoreSheet [] [unchangedProfile] "x" 2
      lahoreRow (by decide) (by decide) (by decide)⟩

/-- C9 witness: the duplicate-rows sheet for identifier y — the lookup
returns row 3 (the later duplicate) and the record's update targets row 3,
never row 2. -/
theorem duplicate_snapshot_last_wins_witness :
    (headerMissing dupSheet = false ∧ 2 ≤ 2 ∧ 2 < 3 ∧
      rowKey (dupSheet.getD 1 []) = some "y" ∧
      findExisting dupSheet "y" = some (3, dupRowLast) ∧
      pyStrip (dupYProfile.nickname) = "y") ∧
    (rowKey dupRowLast = some "y" ∧ dupSheet.getD 2 [] = dupRowLast ∧
      exportBatch dupSheet [] [dupYProfile] =
        (if needs_update dupRowLast (buildRow [] dupYProfile)
          then [SheetAction.update 3 (buildRow [] dupYProfile)] else []) ∧
      (exportBatch dupSheet [] [dupYProfile]).all
        (fun a => !touchesRow 2 a) = true) :=
  ⟨⟨by decide, by decide, by decide, by decide, by decide, by decide⟩,
    duplicate_snapshot_last_wins dupSheet [] dupYProfile "y" 2 3 dupRowLast
      (by decide) (by decide) (by decide) (by decide) (by decide)
      (by decide)⟩

/-! ## Claim C10 (clean_text is not idempotent) -/

/-- C10: clean_text is not idempotent — the doubly-spaced string "not  set"
cleans to the non-empty "not set", whose second cleaning hits the
placeholder list and returns the empty string; since the export loop
re-applies clean_text to the already-cleaned INTRO value, such a value
reaches the sheet as the empty string. -/
theorem clean_text_not_idempotent :
    clean_text (clean_text "not  set") ≠ clean_text "not  set" ∧
    clean_text "not  set" = "not set" ∧
    clean_text (clean_text "not  set") = "" ∧
    (buildRow [] introProfile).getD 15 "" = "" := by
  refine ⟨by decide, by decide, by decide, by decide⟩

/-! ## Claim C2 (idempotence of reconciliation) -/

theorem nickOf_eq_none (p : Profile) (h : nickOf p = none) :
    pyStrip p.nickname = "" := by
  unfold nickOf at h
  split_ifs at h with hb
  · exact hb

theorem nickOf_eq_some {p : Profile} {n : String} (h : nickOf p = some n) :
    pyStrip p.nickname = n ∧ pyStrip p.nickname ≠ "" := by
  unfold nickOf at h
  split_ifs at h with hb
  · exact ⟨Option.some.inj h, hb⟩

theorem headerMissing_eq_false_iff (s : List (List String)) :
    headerMissing s = false ↔ s ≠ [] ∧ s.headD [] ≠ [] := by
  unfold headerMissing
  rw [Bool.or_eq_false_iff]
  simp [List.isEmpty_iff]

theorem headD_set {α : Type} (l : List α) (n : Nat) (x : α) (d : α)
    (hn : 1 ≤ n) : (l.set n x).headD d = l.headD d := by
  cases l with
  | nil => simp
  | cons a t =>
    cases n with
    | zero => omega
    | succ m => simp [List.set_cons_succ]

theorem headD_append {α : Type} (l t : List α) (d : α) (h : l ≠ []) :
    (l ++ t).headD d = l.headD d := by
  cases l with
  | nil => exact absurd rfl h
  | cons a s => rfl

theorem rowKey_buildRow_append (tm : List (String × List String))
    (p : Profile) (t : List String) :
    rowKey (buildRow tm p ++ t) = rowKey (buildRow tm p) := by
  have hlen1 : 2 < (buildRow tm p ++ t).length := by
    rw [List.length_append, buildRow_length]
    omega
  have hlen2 : 2 < (buildRow tm p).length := by
    rw [buildRow_length]
    omega
  have hget : (buildRow tm p ++ t).getD 2 "" = (buildRow tm p).getD 2 "" :=
    List.getD_append _ _ _ _ hlen2
  unfold rowKey
  rw [if_pos hlen1, if_pos hlen2, hget]

theorem needs_update_self (tm : List (String × List String)) (p : Profile) :
    needs_update (buildRow tm p) (buildRow tm p) = false := by
  have h := needs_update_append_self tm p []
  rwa [List.append_nil] at h

theorem applyActions_filterMap (f : Profile → Option SheetAction) :
    ∀ (batch : List Profile) (s : List (List String)),
      applyActions s (batch.filterMap f) =
        batch.foldl (fun d p => match f p with
          | some a => applyAction d a
          | none => d) s := by
  intro batch
  induction batch with
  | nil =>
    intro s
    rfl
  | cons p rest ih =>
    intro s
    rw [List.filterMap_cons, List.foldl_cons]
    cases h : f p with
    | none =>
      rw [ih s]
    | some a =>
      have hstep : applyActions s (a :: rest.filterMap f) =
          applyActions (applyAction s a) (rest.filterMap f) := rfl
      rw [hstep, ih (applyAction s a)]

/-- The run-1 writes, applied one record at a time, keep three facts: the
header row and the sheet's minimum length survive, every record already
processed now reads back a stored row it no longer differs from, and rows of
identifiers not yet processed are untouched.  Decisions are taken against
the fixed snapshot, as in the code, while writes accumulate on d. -/
theorem exportBatch_fold_inv (snapshot : List (List String))
    (tm : List (String × List String))
    (hheader : headerMissing snapshot = false) :
    ∀ (batch processed : List Profile) (d : List (List String)),
      (((processed ++ batch).filterMap nickOf).Nodup) →
      (d ≠ [] ∧ d.headD [] = snapshot.headD [] ∧
        snapshot.length ≤ d.length) →
      (∀ nick : String, (∀ p ∈ processed, nickOf p ≠ some nick) →
        findExisting d nick = findExisting snapshot nick) →
      (∀ p ∈ processed, ∀ n', nickOf p = some n' →
        ∃ i r, findExisting d n' = some (i, r) ∧
          needs_update r (buildRow tm p) = false) →
      (∀ m, 2 ≤ m → m ≤ snapshot.length →
        (∀ p ∈ processed, nickOf p ≠ rowKey (snapshot.getD (m - 1) [])) →
        d.getD (m - 1) [] = snapshot.getD (m - 1) []) →
      ((batch.foldl (fun dd p =>
          match processProfile snapshot tm p with
          | some a => applyAction dd a
          | none => dd) d) ≠ [] ∧
        (batch.foldl (fun dd p =>
          match processProfile snapshot tm p with
          | some a => applyAction dd a
          | none => dd) d).headD [] = snapshot.headD []) ∧
      (∀ p ∈ processed ++ batch, ∀ n', nickOf p = some n' →
        ∃ i r, findExisting (batch.foldl (fun dd p =>
            match processProfile snapshot tm p with
            | some a => applyAction dd a
            | none => dd) d) n' = some (i, r) ∧
          needs_update r (buildRow tm p) = false) := by
  intro batch
  induction batch with
  | nil =>
    intro processed d hnodup hA hB hC hF
    rw [List.foldl_nil]
    exact ⟨⟨hA.1, hA.2.1⟩, by simpa using hC⟩
  | cons q rest ih =>
    intro processed d hnodup hA hB hC hF
    obtain ⟨hdne, hdhead, hdlen⟩ := hA
    rw [List.foldl_cons]
    have hassoc : processed ++ q :: rest = (processed ++ [q]) ++ rest := by
      rw [List.append_cons]
    rw [hassoc] at hnodup ⊢
    cases hn : nickOf q with
    | none =>
      have hblank := nickOf_eq_none q hn
      rw [processProfile_blank snapshot tm q hblank]
      exact ih (processed ++ [q]) d hnodup ⟨hdne, hdhead, hdlen⟩
        (fun nick hcond => hB nick
          (fun p hp => hcond p (List.mem_append_left _ hp)))
        (fun p hp n' hpn => by
          rcases List.mem_append.mp hp with hp' | hp'
          · exact hC p hp' n' hpn
          · rw [List.mem_singleton.mp hp'] at hpn
            rw [hn] at hpn
            exact absurd hpn (by simp))
        (fun m h2 hlen hcond => hF m h2 hlen
          (fun p hp => hcond p (List.mem_append_left _ hp)))
    | some n =>
      obtain ⟨hqn, hqne⟩ := nickOf_eq_some hn
      have hfreshP : ∀ p ∈ processed, nickOf p ≠ some n := by
        intro p hp hcontra
        have hmem1 : n ∈ processed.filterMap nickOf :=
          List.mem_filterMap.mpr ⟨p, hp, hcontra⟩
        have hsplit : ((processed ++ [q]) ++ rest).filterMap nickOf =
            processed.filterMap nickOf ++ n :: rest.filterMap nickOf := by
          rw [List.filterMap_append, List.filterMap_append,
            List.filterMap_cons, hn, List.filterMap_nil, List.append_assoc]
          rfl
        rw [hsplit] at hnodup
        have hdisj := List.disjoint_of_nodup_append hnodup
        exact hdisj hmem1 (List.mem_cons_self _ _)
      have hlookup := hB n hfreshP
      cases hfind : findExisting snapshot n with
      | none =>
        have hproc : processProfile snapshot tm q =
            some (SheetAction.append (buildRow tm q)) :=
          processProfile_new snapshot tm q hqne (by rwa [hqn])
        rw [hproc]
        have hrowkey : rowKey (buildRow tm q) = some n := by
          rw [rowKey_buildRow tm q hqne, hqn]
        refine ih (processed ++ [q]) (d ++ [buildRow tm q]) hnodup
          ⟨by simp, by rw [headD_append _ _ _ hdne]; exact hdhead,
            by rw [List.length_append]; omega⟩
          ?_ ?_ ?_
        · intro nick hcond
          have hnenick : n ≠ nick := by
            intro hcontra
            refine hcond q (List.mem_append_right _
              (List.mem_singleton.mpr rfl)) ?_
            rw [hn, hcontra]
          have hknick : ¬ rowKey (buildRow tm q) = some nick := by
            rw [hrowkey]
            intro hc
            exact hnenick (Option.some.inj hc)
          rw [findExisting_append _ hdne, if_neg hknick]
          exact hB nick (fun p hp => hcond p (List.mem_append_left _ hp))
        · intro p hp n' hpn
          rcases List.mem_append.mp hp with hp' | hp'
          · obtain ⟨i, r, hir, hnu⟩ := hC p hp' n' hpn
            refine ⟨i, r, ?_, hnu⟩
            have hkn' : ¬ rowKey (buildRow tm q) = some n' := by
              rw [hrowkey]
              intro hc
              refine hfreshP p hp' ?_
              rw [hpn, Option.some.inj hc]
            rw [findExisting_append _ hdne, if_neg hkn']
            exact hir
          · rw [List.mem_singleton.mp hp'] at hpn ⊢
            rw [hn] at hpn
            obtain rfl := Option.some.inj hpn
            refine ⟨d.length + 1, buildRow tm q, ?_, needs_update_self tm q⟩
            rw [findExisting_append _ hdne, if_pos hrowkey]
        · intro m h2 hlen hcond
          have hm : m - 1 < d.length := by omega
          rw [List.getD_append _ _ _ _ hm]
          exact hF m h2 hlen
            (fun p hp => hcond p (List.mem_append_left _ hp))
      | some e =>
        obtain ⟨i, er⟩ := e
        obtain ⟨hi2, hilen, hrow, hkey, _⟩ := findExisting_spec hfind
        have hdrow : d.getD (i - 1) [] = er := by
          have := hF i hi2 hilen (fun p hp => by
            rw [hrow, hkey]
            exact hfreshP p hp)
          rwa [hrow] at this
        cases hnu : needs_update er (buildRow tm q) with
        | false =>
          have hproc : processProfile snapshot tm q = none := by
            rw [processProfile_found snapshot tm q hqne (by rwa [hqn]), hnu]
            rfl
          rw [hproc]
          refine ih (processed ++ [q]) d hnodup ⟨hdne, hdhead, hdlen⟩
            (fun nick hcond => hB nick
              (fun p hp => hcond p (List.mem_append_left _ hp)))
            ?_
            (fun m h2 hlen hcond => hF m h2 hlen
              (fun p hp => hcond p (List.mem_append_left _ hp)))
          intro p hp n' hpn
          rcases List.mem_append.mp hp with hp' | hp'
          · exact hC p hp' n' hpn
          · rw [List.mem_singleton.mp hp'] at hpn ⊢
            rw [hn] at hpn
            obtain rfl := Option.some.inj hpn
            exact ⟨i, er, by rw [hlookup]; exact hfind, hnu⟩
        | true =>
          have hproc : processProfile snapshot tm q =
              some (SheetAction.update i (buildRow tm q)) := by
            rw [processProfile_found snapshot tm q hqne (by rwa [hqn]), hnu]
            rfl
          rw [hproc]
          have happly : applyAction d
              (SheetAction.update i (buildRow tm q)) =
              d.set (i - 1) (buildRow tm q ++ er.drop 16) := by
            have h0 : applyAction d (SheetAction.update i (buildRow tm q)) =
                d.set (i - 1)
                  (buildRow tm q ++ (d.getD (i - 1) []).drop 16) := rfl
            rw [h0, hdrow]
          dsimp only
          rw [happly]
          have hnewkey : rowKey (buildRow tm q ++ er.drop 16) = some n := by
            rw [rowKey_buildRow_append, rowKey_buildRow tm q hqne, hqn]
          have holdkey : rowKey (d.getD (i - 1) []) = some n := by
            rw [hdrow]
            exact hkey
          have hset_ne : d.set (i - 1) (buildRow tm q ++ er.drop 16) ≠ [] := by
            intro hc
            apply hdne
            rwa [← List.length_eq_zero, List.length_set,
              List.length_eq_zero] at hc
          have hset_head : (d.set (i - 1)
              (buildRow tm q ++ er.drop 16)).headD [] =
              snapshot.headD [] := by
            rw [headD_set _ _ _ _ (by omega)]
            exact hdhead
          have hset_len : snapshot.length ≤
              (d.set (i - 1) (buildRow tm q ++ er.drop 16)).length := by
            rw [List.length_set]
            exact hdlen
          refine ih (processed ++ [q]) (d.set (i - 1)
              (buildRow tm q ++ er.drop 16)) hnodup
            ⟨hset_ne, hset_head, hset_len⟩
            ?_ ?_ ?_
          · intro nick hcond
            have hnenick : n ≠ nick := by
              intro hcontra
              refine hcond q (List.mem_append_right _
                (List.mem_singleton.mpr rfl)) ?_
              rw [hn, hcontra]
            have hold' : ¬ rowKey (d.getD (i - 1) []) = some nick := by
              rw [holdkey]
              intro hc
              exact hnenick (Option.some.inj hc)
            have hnew' : ¬ rowKey (buildRow tm q ++ er.drop 16) =
                some nick := by
              rw [hnewkey]
              intro hc
              exact hnenick (Option.some.inj hc)
            rw [findExisting_set_frame hi2 hold' hnew']
            exact hB nick (fun p hp => hcond p (List.mem_append_left _ hp))
          · intro p hp n' hpn
            rcases List.mem_append.mp hp with hp' | hp'
            · obtain ⟨ip, rp, hirp, hnup⟩ := hC p hp' n' hpn
              have hne' : n ≠ n' := by
                intro hcontra
                refine hfreshP p hp' ?_
                rw [hpn, hcontra]
              have hold' : ¬ rowKey (d.getD (i - 1) []) = some n' := by
                rw [holdkey]
                intro hc
                exact hne' (Option.some.inj hc)
              have hnew' : ¬ rowKey (buildRow tm q ++ er.drop 16) =
                  some n' := by
                rw [hnewkey]
                intro hc
                exact hne' (Option.some.inj hc)
              refine ⟨ip, rp, ?_, hnup⟩
              rw [findExisting_set_frame hi2 hold' hnew']
              exact hirp
            · rw [List.mem_singleton.mp hp'] at hpn ⊢
              rw [hn] at hpn
              obtain rfl := Option.some.inj hpn
              refine ⟨i, buildRow tm q ++ er.drop 16, ?_,
                needs_update_append_self tm q (er.drop 16)⟩
              exact findExisting_set_hit (by rw [hlookup]; exact hfind)
                hnewkey
          · intro m h2 hlen hcond
            have hmi : m ≠ i := by
              intro hcontra
              refine hcond q (List.mem_append_right _
                (List.mem_singleton.mpr rfl)) ?_
              rw [hn, hcontra, hrow, hkey]
            rw [getD_set_other _ _ _ _ _ (by omega)]
            exact hF m h2 hlen
              (fun p hp => hcond p (List.mem_append_left _ hp))

/-- C2 counterexample: a batch holding two records for the same identifier
with different followers values is not idempotent — after the first run
appends both rows, the second run diffs the first record against the later
appended row and issues another ranged update. -/
theorem reconcile_idempotence_counterexample :
    exportBatch (applyActions [SHEET_HEADERS]
        (exportBatch [SHEET_HEADERS] [] [dupBatchA, dupBatchB])) []
      [dupBatchA, dupBatchB] =
      [SheetAction.update 3 (buildRow [] dupBatchA)] ∧
    exportBatch (applyActions [SHEET_HEADERS]
        (exportBatch [SHEET_HEADERS] [] [dupBatchA, dupBatchB])) []
      [dupBatchA, dupBatchB] ≠ [] := by
  refine ⟨by decide, by decide⟩

/-- C2 amended: for a batch whose non-blank stripped identifiers are
pairwise distinct (one Record per identifier, the data-model invariant),
reconciliation is idempotent: after the first run's writes are applied to
the sheet, re-presenting the identical batch against the new snapshot
produces no write at all — no header append, no ranged update and no
append_row. -/
theorem reconcile_idempotent (snapshot : List (List String))
    (tm : List (String × List String)) (batch : List Profile)
    (hheader : headerMissing snapshot = false)
    (hnodup : (batch.filterMap nickOf).Nodup) :
    exportBatch (applyActions snapshot (exportBatch snapshot tm batch)) tm
      batch = [] := by
  have hsnap := (headerMissing_eq_false_iff snapshot).mp hheader
  have hexp : exportBatch snapshot tm batch =
      batch.filterMap (processProfile snapshot tm) := by
    unfold exportBatch
    rw [if_neg (by rw [hheader]; exact Bool.false_ne_true)]
  rw [hexp, applyActions_filterMap (processProfile snapshot tm) batch
    snapshot]
  obtain ⟨⟨hfne, hfhead⟩, hC⟩ := exportBatch_fold_inv snapshot tm hheader
    batch [] snapshot (by simpa using hnodup)
    ⟨hsnap.1, rfl, le_refl _⟩
    (fun nick _ => rfl)
    (by simp)
    (fun m h2 hlen _ => rfl)
  have hfinheader : headerMissing (batch.foldl (fun dd p =>
      match processProfile snapshot tm p with
      | some a => applyAction dd a
      | none => dd) snapshot) = false := by
    rw [headerMissing_eq_false_iff]
    exact ⟨hfne, by rw [hfhead]; exact hsnap.2⟩
  unfold exportBatch
  rw [if_neg (by rw [hfinheader]; exact Bool.false_ne_true)]
  rw [List.filterMap_eq_nil_iff]
  intro p hp
  cases hpn : nickOf p with
  | none => exact processProfile_blank _ tm p (nickOf_eq_none p hpn)
  | some n' =>
    obtain ⟨i, r, hir, hnu⟩ := hC p (by simpa using hp) n' hpn
    rw [processProfile_found _ tm p (nickOf_eq_some hpn).2
      (by rw [(nickOf_eq_some hpn).1]; exact hir), hnu]
    rfl

/-- C2 amended witness: a two-record batch with distinct identifiers against
the header-plus-Lahore sheet; the second run issues no write. -/
theorem reconcile_idempotent_witness :
    (headerMissing lahoreSheet = false ∧
      (([lahoreProfile, newcomer].filterMap nickOf).Nodup)) ∧
    exportBatch (applyActions lahoreSheet
        (exportBatch lahoreSheet [] [lahoreProfile, newcomer])) []
      [lahoreProfile, newcomer] = [] :=
  ⟨⟨by decide, by decide⟩,
    reconcile_idempotent lahoreSheet [] [lahoreProfile, newcomer]
      (by decide) (by decide)⟩

/-! ## Claim C4 (rate limit invariant)

The plan: along any trace, among any 50 consecutive remote calls at most
one 60-second window can hold them all, because the cleaned log retains (as
a sublist) every recent previous call except possibly the one whose pending
sleep cleared the log, and a call only proceeds without the 65-second pause
while the cleaned log holds at most 48 entries. -/

theorem tail_sublist_mono {α : Type} {l₁ l₂ : List α} (h : l₁.Sublist l₂) :
    l₁.tail.Sublist l₂.tail := by
  cases l₁ with
  | nil => simp
  | cons a t =>
    cases l₂ with
    | nil => exact absurd h (by simp)
    | cons b s =>
      cases h with
      | cons _ h' => exact (List.tail_sublist (a :: t)).trans h'
      | cons₂ _ h' => exact h'

theorem runCalls_cons (log : List Nat) (now g : Nat) (fail : Bool)
    (gs : List (Nat × Bool)) :
    runCalls log now ((g, fail) :: gs) =
      (if 50 ≤ (cleanLog log (now + g)).length + 1 then
        (if fail then
          (now + g + 65) :: (now + g + 130) ::
            runCalls [] (now + g + 130) gs
        else (now + g + 65) :: runCalls [] (now + g + 65) gs)
      else
        (if fail then
          (now + g) :: (now + g + 65) ::
            runCalls (cleanLog log (now + g) ++ [now + g]) (now + g + 65) gs
        else (now + g) :: runCalls (cleanLog log (now + g) ++ [now + g])
          (now + g) gs)) := by
  simp only [runCalls, MAX_REQUESTS_PER_MINUTE, RETRY_DELAY]

/-- The recent-past calls other than the head survive the cleaning pass:
they sit in the log by the invariant and their age is under 60 seconds. -/
theorem recent_tail_sublist_clean (past log : List Nat) (now r : Nat)
    (hpast : ∀ p ∈ past, p ≤ now) (hnr : now ≤ r)
    (hsub : (past.filter (recentAt now)).tail.Sublist log) :
    (past.filter (recentAt r)).tail.Sublist (cleanLog log r) := by
  have hmono : (past.filter (recentAt r)).Sublist
      (past.filter (recentAt now)) := by
    apply List.monotone_filter_right
    intro a ha
    simp only [recentAt, decide_eq_true_eq] at ha ⊢
    omega
  have h1 : (past.filter (recentAt r)).tail.Sublist log :=
    (tail_sublist_mono hmono).trans hsub
  have h2 : ∀ a ∈ (past.filter (recentAt r)).tail, keepRecent r a = true := by
    intro a ha
    have ha' : a ∈ past.filter (recentAt r) :=
      (List.tail_sublist _).subset ha
    obtain ⟨hmem, hcond⟩ := List.mem_filter.mp ha'
    simp only [recentAt, decide_eq_true_eq] at hcond
    have hple := hpast a hmem
    simp only [keepRecent, decide_eq_true_eq]
    rw [Nat.mod_eq_of_lt (by omega)]
    omega
  have hstep1 : (past.filter (recentAt r)).tail =
      (past.filter (recentAt r)).tail.filter (keepRecent r) :=
    (List.filter_eq_self.mpr h2).symm
  have hstep2 : ((past.filter (recentAt r)).tail.filter
      (keepRecent r)).Sublist (log.filter (keepRecent r)) :=
    List.Sublist.filter _ h1
  rw [hstep1]
  exact hstep2

/-- A call issued at least 65 seconds after every earlier call is alone in
its backward window. -/
theorem count_fresh (past : List Nat) (now e : Nat)
    (hpast : ∀ p ∈ past, p ≤ now) (he : now + 65 ≤ e) :
    ((past ++ [e]).filter (recentAt e)).length = 1 := by
  rw [List.filter_append]
  have h1 : past.filter (recentAt e) = [] := by
    rw [List.filter_eq_nil_iff]
    intro p hp
    have := hpast p hp
    simp only [recentAt, decide_eq_true_eq]
    omega
  rw [h1]
  simp [recentAt]

/-- A call that proceeds without the pause has at most 48 cleaned log
entries, hence at most 49 recent predecessors, hence at most 50 calls in
its backward window including itself. -/
theorem count_nontrigger (past log : List Nat) (now r : Nat)
    (hpast : ∀ p ∈ past, p ≤ now) (hnr : now ≤ r)
    (hsub : (past.filter (recentAt now)).tail.Sublist log)
    (hclean : (cleanLog log r).length ≤ 48) :
    ((past ++ [r]).filter (recentAt r)).length ≤ 50 := by
  rw [List.filter_append]
  have hr : [r].filter (recentAt r) = [r] := by
    simp [recentAt]
  rw [hr, List.length_append]
  have htail := (recent_tail_sublist_clean past log now r hpast hnr
    hsub).length_le
  have hsplit : (past.filter (recentAt r)).length ≤
      (past.filter (recentAt r)).tail.length + 1 := by
    cases past.filter (recentAt r) <;> simp
  simp only [List.length_singleton]
  omega

/-- A nonempty filtered list has a last satisfying element: split the list
at the last position whose element satisfies P. -/
theorem exists_last_sat {α : Type} (P : α → Bool) :
    ∀ l : List α, l.filter P ≠ [] →
      ∃ pre x post, l = pre ++ x :: post ∧ P x = true ∧
        ∀ y ∈ post, P y = false := by
  intro l
  induction l with
  | nil => simp
  | cons a t ih =>
    intro hne
    by_cases ht : t.filter P = []
    · have hPa : P a = true := by
        by_contra hPa'
        rw [List.filter_cons, if_neg (by simpa using hPa'), ht] at hne
        exact hne rfl
      refine ⟨[], a, t, rfl, hPa, ?_⟩
      intro y hy
      by_contra hPy
      have : y ∈ t.filter P := List.mem_filter.mpr ⟨hy, by simpa using hPy⟩
      rw [ht] at this
      exact absurd this (List.not_mem_nil y)
    · obtain ⟨pre, x, post, heq, hPx, hpost⟩ := ih ht
      exact ⟨a :: pre, x, post, by rw [heq]; rfl, hPx, hpost⟩

/-- Core bound: along any trace, for every emitted call x that comes after
the pre-existing past calls, the calls up to and including x that are
within 60 seconds ending at x number at most 50. -/
theorem runCalls_recent_bound (gs : List (Nat × Bool)) :
    ∀ (log : List Nat) (now : Nat) (past : List Nat),
      (∀ t ∈ log, t ≤ now) →
      log.length ≤ 49 →
      ((past.filter (recentAt now)).tail).Sublist log →
      (∀ p ∈ past, p ≤ now) →
      ∀ pre x post, past ++ runCalls log now gs = pre ++ x :: post →
        past.length ≤ pre.length →
        ((pre ++ [x]).filter (recentAt x)).length ≤ 50 := by
  induction gs with
  | nil =>
    intro log now past _ _ _ _ pre x post heq hlen
    exfalso
    simp only [runCalls, List.append_nil] at heq
    have hl := congrArg List.length heq
    simp only [List.length_append, List.length_cons] at hl
    omega
  | cons gf gs ih =>
    obtain ⟨g, fail⟩ := gf
    intro log now past H1 H2 H3 H4 pre x post heq hlen
    rw [runCalls_cons] at heq
    by_cases htrig : 50 ≤ (cleanLog log (now + g)).length + 1
    · rw [if_pos htrig] at heq
      cases fail with
      | false =>
        rw [if_neg (by simp)] at heq
        rcases Nat.lt_or_ge past.length pre.length with hgt | hge
        · have heq' : (past ++ [now + g + 65]) ++
              runCalls [] (now + g + 65) gs = pre ++ x :: post :=
            (List.append_cons _ _ _).symm.trans heq
          have hfil : (past ++ [now + g + 65]).filter
              (recentAt (now + g + 65)) = [now + g + 65] := by
            rw [List.filter_append]
            have h0 : past.filter (recentAt (now + g + 65)) = [] := by
              rw [List.filter_eq_nil_iff]
              intro p hp
              have := H4 p hp
              simp only [recentAt, decide_eq_true_eq]
              omega
            rw [h0]
            simp [recentAt]
          refine ih [] (now + g + 65) (past ++ [now + g + 65])
            (by simp) (by simp) (by rw [hfil]; simp) ?_ pre x post heq' ?_
          · intro p hp
            rcases List.mem_append.mp hp with hp' | hp'
            · have := H4 p hp'
              omega
            · rw [List.mem_singleton.mp hp']
          · rw [List.length_append, List.length_singleton]
            omega
        · have hleneq : past.length = pre.length :=
            Nat.le_antisymm hlen hge
          obtain ⟨rfl, hxp⟩ := List.append_inj heq hleneq
          obtain ⟨hx, -⟩ := List.cons.inj hxp
          rw [← hx]
          have hc := count_fresh past now (now + g + 65) H4 (by omega)
          omega
      | true =>
        rw [if_pos rfl] at heq
        rcases Nat.lt_or_ge pre.length (past.length + 1) with h1 | h1
        · have hleneq : past.length = pre.length := by omega
          obtain ⟨rfl, hxp⟩ := List.append_inj heq hleneq
          obtain ⟨hx, -⟩ := List.cons.inj hxp
          rw [← hx]
          have hc := count_fresh past now (now + g + 65) H4 (by omega)
          omega
        · have heq1 : (past ++ [now + g + 65]) ++
              (now + g + 130) :: runCalls [] (now + g + 130) gs =
              pre ++ x :: post :=
            (List.append_cons _ _ _).symm.trans heq
          have hple : ∀ p ∈ past ++ [now + g + 65], p ≤ now + g + 65 := by
            intro p hp
            rcases List.mem_append.mp hp with hp' | hp'
            · have := H4 p hp'
              omega
            · rw [List.mem_singleton.mp hp']
          rcases Nat.lt_or_ge pre.length (past.length + 2) with h2 | h2
          · have hleneq : (past ++ [now + g + 65]).length = pre.length := by
              rw [List.length_append, List.length_singleton]
              omega
            obtain ⟨hpp, hxp⟩ := List.append_inj heq1 hleneq
            obtain ⟨hx, -⟩ := List.cons.inj hxp
            rw [← hpp, ← hx]
            have hc := count_fresh (past ++ [now + g + 65]) (now + g + 65)
              (now + g + 130) hple (by omega)
            omega
          · have heq2 : ((past ++ [now + g + 65]) ++ [now + g + 130]) ++
                runCalls [] (now + g + 130) gs = pre ++ x :: post :=
              (List.append_cons _ _ _).symm.trans heq1
            have hfil : ((past ++ [now + g + 65]) ++
                [now + g + 130]).filter (recentAt (now + g + 130)) =
                [now + g + 130] := by
              rw [List.filter_append]
              have h0 : (past ++ [now + g + 65]).filter
                  (recentAt (now + g + 130)) = [] := by
                rw [List.filter_eq_nil_iff]
                intro p hp
                have := hple p hp
                simp only [recentAt, decide_eq_true_eq]
                omega
              rw [h0]
              simp [recentAt]
            refine ih [] (now + g + 130)
              ((past ++ [now + g + 65]) ++ [now + g + 130])
              (by simp) (by simp) (by rw [hfil]; simp) ?_ pre x post
              heq2 ?_
            · intro p hp
              rcases List.mem_append.mp hp with hp' | hp'
              · have := hple p hp'
                omega
              · rw [List.mem_singleton.mp hp']
            · rw [List.length_append, List.length_append,
                List.length_singleton, List.length_singleton]
              omega
    · rw [if_neg htrig] at heq
      have hclean : (cleanLog log (now + g)).length ≤ 48 := by omega
      have hlog' : ∀ t ∈ cleanLog log (now + g) ++ [now + g],
          t ≤ now + g := by
        intro t ht
        rcases List.mem_append.mp ht with ht' | ht'
        · have := H1 t (List.mem_filter.mp ht').1
          omega
        · rw [List.mem_singleton.mp ht']
      have hlen' : (cleanLog log (now + g) ++ [now + g]).length ≤ 49 := by
        rw [List.length_append, List.length_singleton]
        omega
      have hsub' : ((past ++ [now + g]).filter
          (recentAt (now + g))).tail.Sublist
          (cleanLog log (now + g) ++ [now + g]) := by
        rw [List.filter_append]
        have hr : [now + g].filter (recentAt (now + g)) = [now + g] := by
          simp [recentAt]
        rw [hr]
        cases hA : past.filter (recentAt (now + g)) with
        | nil => simp
        | cons a t =>
          have hs := recent_tail_sublist_clean past log now (now + g) H4
            (by omega) H3
          rw [hA] at hs
          exact List.Sublist.append hs (List.Sublist.refl [now + g])
      cases fail with
      | false =>
        rw [if_neg (by simp)] at heq
        rcases Nat.lt_or_ge past.length pre.length with hgt | hge
        · have heq' : (past ++ [now + g]) ++
              runCalls (cleanLog log (now + g) ++ [now + g]) (now + g) gs =
              pre ++ x :: post :=
            (List.append_cons _ _ _).symm.trans heq
          refine ih (cleanLog log (now + g) ++ [now + g]) (now + g)
            (past ++ [now + g]) hlog' hlen' hsub' ?_ pre x post heq' ?_
          · intro p hp
            rcases List.mem_append.mp hp with hp' | hp'
            · have := H4 p hp'
              omega
            · rw [List.mem_singleton.mp hp']
          · rw [List.length_append, List.length_singleton]
            omega
        · have hleneq : past.length = pre.length :=
            Nat.le_antisymm hlen hge
          obtain ⟨rfl, hxp⟩ := List.append_inj heq hleneq
          obtain ⟨hx, -⟩ := List.cons.inj hxp
          rw [← hx]
          exact count_nontrigger past log now (now + g) H4 (by omega) H3
            hclean
      | true =>
        rw [if_pos rfl] at heq
        rcases Nat.lt_or_ge pre.length (past.length + 1) with h1 | h1
        · have hleneq : past.length = pre.length := by omega
          obtain ⟨rfl, hxp⟩ := List.append_inj heq hleneq
          obtain ⟨hx, -⟩ := List.cons.inj hxp
          rw [← hx]
          exact count_nontrigger past log now (now + g) H4 (by omega) H3
            hclean
        · have heq1 : (past ++ [now + g]) ++
              (now + g + 65) :: runCalls (cleanLog log (now + g) ++
                [now + g]) (now + g + 65) gs = pre ++ x :: post :=
            (List.append_cons _ _ _).symm.trans heq
          have hple : ∀ p ∈ past ++ [now + g], p ≤ now + g := by
            intro p hp
            rcases List.mem_append.mp hp with hp' | hp'
            · have := H4 p hp'
              omega
            · rw [List.mem_singleton.mp hp']
          rcases Nat.lt_or_ge pre.length (past.length + 2) with h2 | h2
          · have hleneq : (past ++ [now + g]).length = pre.length := by
              rw [List.length_append, List.length_singleton]
              omega
            obtain ⟨hpp, hxp⟩ := List.append_inj heq1 hleneq
            obtain ⟨hx, -⟩ := List.cons.inj hxp
            rw [← hpp, ← hx]
            have hc := count_fresh (past ++ [now + g]) (now + g)
              (now + g + 65) hple (by omega)
            omega
          · have heq2 : ((past ++ [now + g]) ++ [now + g + 65]) ++
                runCalls (cleanLog log (now + g) ++ [now + g])
                  (now + g + 65) gs = pre ++ x :: post :=
              (List.append_cons _ _ _).symm.trans heq1
            have hfil : ((past ++ [now + g]) ++ [now + g + 65]).filter
                (recentAt (now + g + 65)) = [now + g + 65] := by
              rw [List.filter_append]
              have h0 : (past ++ [now + g]).filter
                  (recentAt (now + g + 65)) = [] := by
                rw [List.filter_eq_nil_iff]
                intro p hp
                have := hple p hp
                simp only [recentAt, decide_eq_true_eq]
                omega
              rw [h0]
              simp [recentAt]
            refine ih (cleanLog log (now + g) ++ [now + g]) (now + g + 65)
              ((past ++ [now + g]) ++ [now + g + 65])
              (fun t ht => by have := hlog' t ht; omega) hlen'
              (by rw [hfil]; simp) ?_ pre x post heq2 ?_
            · intro p hp
              rcases List.mem_append.mp hp with hp' | hp'
              · have := hple p hp'
                omega
              · rw [List.mem_singleton.mp hp']
            · rw [List.length_append, List.length_append,
                List.length_singleton, List.length_singleton]
              omega

/-- Core window bound for the tracked calls: for every trace of
limiter-tracked remote calls (arbitrary request gaps and arbitrary 429
failures, each of which costs one untracked retry call 65 seconds later),
every 60-second window [w, w + 60) contains at most
max_requests_per_minute = 50 issued calls. -/
theorem rate_limit_window (t0 : Nat) (gs : List (Nat × Bool)) (w : Nat) :
    ((runCalls [] t0 gs).filter (inWindow w)).length ≤
      MAX_REQUESTS_PER_MINUTE := by
  show ((runCalls [] t0 gs).filter (inWindow w)).length ≤ 50
  by_cases hne : (runCalls [] t0 gs).filter (inWindow w) = []
  · rw [hne]
    simp
  · obtain ⟨pre, x, post, heq, hPx, hpost⟩ :=
      exists_last_sat (inWindow w) _ hne
    rw [heq]
    have hsplit : (pre ++ x :: post).filter (inWindow w) =
        ((pre ++ [x]).filter (inWindow w)) ++ post.filter (inWindow w) := by
      conv_lhs => rw [List.append_cons]
      rw [List.filter_append]
    have hpost0 : post.filter (inWindow w) = [] := by
      rw [List.filter_eq_nil_iff]
      intro y hy
      simp [hpost y hy]
    rw [hsplit, hpost0, List.append_nil]
    have hmono : ((pre ++ [x]).filter (inWindow w)).Sublist
        ((pre ++ [x]).filter (recentAt x)) := by
      apply List.monotone_filter_right
      intro a ha
      simp only [inWindow, Bool.and_eq_true, decide_eq_true_eq] at ha hPx
      simp only [recentAt, decide_eq_true_eq]
      omega
    have hbound := runCalls_recent_bound gs [] t0 [] (by simp) (by simp)
      (by simp) (by simp) pre x post (by simpa using heq) (by simp)
    exact le_trans hmono.length_le hbound

/-- Simulation: in a full trace the limiter-governed calls are exactly the
`runCalls` trace obtained by folding each untracked event's gap into the
next tracked event (untracked calls never touch the log, they only let
time pass). -/
theorem trackedCalls_eq_runCalls (es : List CallEvent) :
    ∀ (log : List Nat) (now acc : Nat),
      trackedCalls log (now + acc) es = runCalls log now (collapseEvents acc es) := by
  induction es with
  | nil => intro log now acc; rfl
  | cons e es ih =>
    intro log now acc
    cases e with
    | untracked g =>
      show trackedCalls log (now + acc + g) es =
        runCalls log now (collapseEvents (acc + g) es)
      rw [Nat.add_assoc]
      exact ih log now (acc + g)
    | tracked g fail =>
      simp only [trackedCalls, runCalls, collapseEvents]
      rw [Nat.add_assoc now acc g]
      split_ifs with h1 h2 h3
      · have h := ih [] (now + (acc + g) + 2 * RETRY_DELAY) 0
        rw [Nat.add_zero] at h
        rw [h]
      · have h := ih [] (now + (acc + g) + RETRY_DELAY) 0
        rw [Nat.add_zero] at h
        rw [h]
      · have h := ih (cleanLog log (now + (acc + g)) ++ [now + (acc + g)])
          (now + (acc + g) + RETRY_DELAY) 0
        rw [Nat.add_zero] at h
        rw [h]
      · have h := ih (cleanLog log (now + (acc + g)) ++ [now + (acc + g)])
          (now + (acc + g)) 0
        rw [Nat.add_zero] at h
        rw [h]

/-- C4 counterexample: the sliding log governs only the calls routed
through track_api_request, while the setup and export paths also call the
spreadsheet client directly (open_by_url at lines 316, 626 and 680,
worksheet lookups at lines 319, 629, 685 and 733, get_all_values at lines
324 and 634).  `fullRunTrace` follows the program's exact remote-call
sequence for a fifteen-user run whose content writes fail with
non-throttle errors (the failure path skips the request_delay sleep), with
every environment-controlled gap zero: all 56 remote calls fall in the
window [0, 60), yet the limiter never interposes — the log never exceeds
the 35 tracked calls, far below the 50-entry threshold, and every call
goes out immediately — so a window holds 56 > 50 remote-table calls.  The
sliding log therefore does not bound the total call count per window, only
the tracked subset (35 here); in a real run only the scraping sleeps
between batches — not the limiter the claim credits — space the unguarded
calls out. -/
theorem rate_limit_all_calls_counterexample :
    ((runAllCalls [] 0 fullRunTrace).filter (inWindow 0)).length = 56 ∧
    MAX_REQUESTS_PER_MINUTE < 56 ∧
    runAllCalls [] 0 fullRunTrace = List.replicate 56 0 ∧
    ((trackedCalls [] 0 fullRunTrace).filter (inWindow 0)).length = 35 :=
  ⟨by decide, by decide, by decide, by decide⟩

/-- C4 amended: in every execution — any interleaving of limiter-tracked
calls (arbitrary gaps, arbitrary 429 failures each costing one untracked
retry 65 seconds later) with the unguarded direct client calls — the
limiter-governed calls in any 60-second window [w, w + 60) number at most
max_requests_per_minute = 50; the calls bypassing track_api_request are
outside this bound. -/
theorem rate_limit_tracked_window (t0 : Nat) (es : List CallEvent) (w : Nat) :
    ((trackedCalls [] t0 es).filter (inWindow w)).length ≤
      MAX_REQUESTS_PER_MINUTE := by
  have h := trackedCalls_eq_runCalls es [] t0 0
  rw [Nat.add_zero] at h
  rw [h]
  exact rate_limit_window t0 (collapseEvents 0 es) w

end Onlinez
